import Mathlib

/-!
Verification development for the session event-correlation and
flow-reconstruction core of the agentwatch dashboard.

The definitions below are a shallow embedding of the TypeScript source:

* `processSessionData` embeds `src/utils/sessionProcessor.ts`
  (the Event Correlator): timestamps are modelled as integer
  milliseconds (the code converts ISO strings to epoch ms with
  `new Date(..).getTime()` before every comparison or offset, and the
  ISO round trip is the identity on the millisecond value), JavaScript
  `undefined`-able string fields are modelled as `Option String`, and
  JS truthiness tests on strings (`if (x)`, `x || y`) are modelled with
  `jsTruthy` (the empty string is falsy).  JS `Map`s whose keys are only
  ever set once per detection are modelled by filtering, which yields
  the same `get` results (later `set`s overwrite, so a single-valued
  map lookup is the last matching insertion).
* `flowAgents` embeds the participant-map construction of
  `src/components/session-replay/SessionFlowGraph.tsx`
  (`sessionFlow` useMemo, first and second passes).
* `mafConnections` / `initialEdges` embed the session-flow state machine
  and edge construction of
  `src/components/session-replay/MultiAgentFlow.tsx`.
-/

/-- JS truthiness for an optional string: `undefined` and `""` are falsy. -/
def jsTruthy : Option String → Option String
  | some s => if s = "" then none else some s
  | none => none

/-- JS `a || b` where `a` is an optional string and `b` a string. -/
def jsOr (a : Option String) (b : String) : String :=
  (jsTruthy a).getD b

/-- One tool usage inside an agent response (`ToolUsage` in `types/session.ts`). -/
structure ToolUsage where
  tool_name : String
  parameters : Option String := none
  result : Option String := none
  timestamp : Int
deriving DecidableEq, Repr

/-- Handoff record inside an agent response (`handoff_details`). -/
structure HandoffDetails where
  from_agent : String
  to_agent : String
  reason : String := ""
  handoff_type : String := ""
deriving DecidableEq, Repr

/-- One chat message of the transcript (`ChatMessage`). -/
structure ChatMessage where
  role : String
  content : String := ""
  timestamp : Int
  message_id : String
  request_id : Option String := none
deriving DecidableEq, Repr

/-- One agent response of the transcript (`AgentResponse`); `trace_id` and
`agent_id` are read by the processor from the raw JSON even though the TS
interface does not declare them, so they are optional here. -/
structure AgentResponse where
  timestamp : Int
  agent : String
  response : String := ""
  duration_seconds : Int := 0
  handoff_occurred : Bool := false
  tools_used : List ToolUsage := []
  request_id : Option String := none
  response_id : String
  trace_id : Option String := none
  agent_id : Option String := none
  handoff_details : Option HandoffDetails := none
deriving DecidableEq, Repr

/-- One security detection (`detections` entries). -/
structure Detection where
  id : Int
  severity : Option String := none
  detection_type : Option String := none
  context : Option String := none
  matchesList : List String := []
  message_id : Option String := none
  request_id : Option String := none
  message_index : Option Nat := none
  trace_id : Option String := none
deriving DecidableEq, Repr

/-- The transcript consumed by `processSessionData` (the fields of
`ApiSessionResponse` it actually reads). -/
structure SessionData where
  chat_history : List ChatMessage := []
  agent_responses : List AgentResponse := []
  detections : List Detection := []
deriving DecidableEq, Repr

/-- Tag of a `ProcessedEvent`. -/
inductive EventType where
  | user_message
  | agent_response
  | handoff
  | tool_call
  | violation
deriving DecidableEq, Repr

/-- Variant-specific payload of a `ProcessedEvent` (`details`). -/
structure EventDetails where
  from_agent : Option String := none
  from_agent_id : Option String := none
  to_agent : Option String := none
  to_agent_id : Option String := none
  reason : Option String := none
  handoff_type : Option String := none
  tool_name : Option String := none
  parameters : Option String := none
  result : Option String := none
  handoff_occurred : Option Bool := none
  detection_type : Option String := none
  context : Option String := none
  matchesList : Option (List String) := none
  violation_id : Option Int := none
deriving DecidableEq, Repr

/-- A `ProcessedEvent` as produced by `processSessionData`. -/
structure Event where
  id : String
  timestamp : Int
  type : EventType
  agent : String
  agent_id : Option String := none
  content : String := ""
  duration : Option Int := none
  detections : List Detection := []
  severity : Option String := none
  request_id : Option String := none
  details : Option EventDetails := none
deriving DecidableEq, Repr

/-- The ambient agent-name cache read by
`AgentNameService.getCachedAgentName`: `cache id = some name` models a
fresh (non-expired) cache entry, `none` a miss or an expired entry. -/
abbrev Cache := String → Option String

/-- Substring test on character lists (JS `String.prototype.includes`). -/
def charsInfix (pat : List Char) : List Char → Bool
  | [] => List.isPrefixOf pat []
  | c :: rest => List.isPrefixOf pat (c :: rest) || charsInfix pat rest

/-- JS `s.includes(pat)`. -/
def strIncludes (s pat : String) : Bool :=
  charsInfix pat.data s.data

/-- Lower-case hex digit (the character class of `_agent_[a-f0-9]+$`). -/
def isHexLower (c : Char) : Bool :=
  (decide ('a' ≤ c) && decide (c ≤ 'f')) || (decide ('0' ≤ c) && decide (c ≤ '9'))

/-- Nonempty all-hex-lower character list (`[a-f0-9]+` anchored at the end). -/
def hexTail : List Char → Bool
  | [] => false
  | c :: rest => isHexLower c && (rest.isEmpty || hexTail rest)

/-- Whether a character list entirely matches `_agent_[a-f0-9]+$`. -/
def matchesAgentSuffix (l : List Char) : Bool :=
  List.isPrefixOf "_agent_".data l && hexTail (l.drop 7)

/-- Remove the leftmost match of `/_agent_[a-f0-9]+$/` (JS `replace`). -/
def stripAgentSuffix : List Char → List Char
  | [] => []
  | c :: rest =>
    if matchesAgentSuffix (c :: rest) then []
    else c :: stripAgentSuffix rest

/-- Remove a leading `agent_` (JS `replace(/^agent_/, '')`). -/
def stripAgentPrefix (l : List Char) : List Char :=
  if List.isPrefixOf "agent_".data l then l.drop 6 else l

/-- JS `\w` word character: ASCII letter, digit or underscore. -/
def isWordChar (c : Char) : Bool :=
  c.isAlpha || c.isDigit || c = '_'

/-- Uppercase every word character at a word boundary
(JS `replace(/\b\w/g, l => l.toUpperCase())`); the Boolean argument
records whether the previous character was a word character. -/
def titleCaseGo : Bool → List Char → List Char
  | _, [] => []
  | prevW, c :: rest =>
    (if isWordChar c && !prevW then c.toUpper else c) :: titleCaseGo (isWordChar c) rest

/-- `getCleanAgentName` from `sessionProcessor.ts` (fallback readable name). -/
def getCleanAgentName (agentId : String) : String :=
  if strIncludes agentId "Customer Service Agent" || strIncludes agentId "customer_service" then
    "Customer Service Agent"
  else if strIncludes agentId "File System Agent" || strIncludes agentId "file_system" then
    "File System Agent"
  else if strIncludes agentId "Web Search Agent" || strIncludes agentId "web_search" then
    "Web Search Agent"
  else if strIncludes agentId "summarizer" then
    "Summarizer Agent"
  else
    String.mk (titleCaseGo false
      (((stripAgentSuffix (stripAgentPrefix agentId.data))).map
        (fun c => if c = '_' then ' ' else c)))

/-- `AgentNameService.getCachedAgentName(x) || getCleanAgentName(x)`:
the cached display name when fresh and truthy, else the cleaned id. -/
def resolveName (cache : Cache) (agentId : String) : String :=
  match cache agentId with
  | some n => if n = "" then getCleanAgentName agentId else n
  | none => getCleanAgentName agentId

/-- Underscores to spaces, then title case
(the violation-content prettification of `detection_type`). -/
def prettyTypeName (t : String) : String :=
  String.mk (titleCaseGo false (t.data.map (fun c => if c = '_' then ' ' else c)))

/-- Lookup in the `responsesByRequestId` map: the value is the last
response inserted under the (truthy) key, and a missing/falsy probe key
finds nothing. -/
def respByRequestId (rs : List AgentResponse) (k : Option String) : Option AgentResponse :=
  match jsTruthy k with
  | none => none
  | some key => (rs.filter (fun r => jsTruthy r.request_id = some key)).getLast?

/-- Lookup in the `responsesByTraceId` map (keys are truthy `trace_id`s). -/
def respByTraceId (rs : List AgentResponse) (key : String) : Option AgentResponse :=
  (rs.filter (fun r => jsTruthy r.trace_id = some key)).getLast?

/-- The response resolution for a user message: `request_id` map first,
then (when the message id is truthy) the trace-id fallback map probed
with the message's own id. -/
def resolveResponse (rs : List AgentResponse) (m : ChatMessage) : Option AgentResponse :=
  match respByRequestId rs m.request_id with
  | some r => some r
  | none => if m.message_id = "" then none else respByTraceId rs m.message_id

/-- All detections filed in `detectionByMessageId` under the probe key
(insertion order is the `detections` order). -/
def detsByMessageId (ds : List Detection) (key : String) : List Detection :=
  ds.filter (fun d => jsTruthy d.message_id = some key)

/-- All detections filed in `detectionByRequestId` under the probe key;
a falsy probe key finds nothing. -/
def detsByRequestId (ds : List Detection) (k : Option String) : List Detection :=
  match jsTruthy k with
  | none => []
  | some key => ds.filter (fun d => jsTruthy d.request_id = some key)

/-- All detections filed in `detectionMap` under a message ordinal
(the guard in the source is `!== undefined`, not truthiness). -/
def detsByIndex (ds : List Detection) (i : Nat) : List Detection :=
  ds.filter (fun d => d.message_index = some i)

/-- All detections filed in `detectionByTraceId` under the probe key. -/
def detsByTraceId (ds : List Detection) (key : String) : List Detection :=
  ds.filter (fun d => jsTruthy d.trace_id = some key)

/-- The duplicate test of the dedup filter:
`d.id === x.id || (d.message_id === x.message_id && d.detection_type === x.detection_type)`
(JS `undefined === undefined` is true, hence plain `Option` equality). -/
def detEq (a b : Detection) : Bool :=
  a.id == b.id || (a.message_id == b.message_id && a.detection_type == b.detection_type)

/-- Worker for the dedup filter: an element is kept exactly when no
earlier element of the original list (`seen`) matches it, which is the
`index === self.findIndex(...)` condition of the source. -/
def dedupGo : List Detection → List Detection → List Detection
  | _, [] => []
  | seen, d :: rest =>
    if seen.any (fun e => detEq e d) then dedupGo (seen ++ [d]) rest
    else d :: dedupGo (seen ++ [d]) rest

/-- The `filter((detection, index, self) => index === self.findIndex(...))`
deduplication applied to both candidate detection lists. -/
def dedupDetections (l : List Detection) : List Detection :=
  dedupGo [] l

/-- Candidate detections for a user message (the four-map union, deduplicated). -/
def userDetectionsFor (ds : List Detection) (i : Nat) (m : ChatMessage) : List Detection :=
  dedupDetections
    (detsByMessageId ds m.message_id ++
     detsByRequestId ds m.request_id ++
     detsByIndex ds i ++
     detsByTraceId ds (jsOr m.request_id m.message_id))

/-- Candidate detections for an agent response (probed by `response_id`,
`request_id`, ordinal `index + 1` and `response_id` as trace id). -/
def responseDetectionsFor (ds : List Detection) (i : Nat) (r : AgentResponse) : List Detection :=
  dedupDetections
    (detsByMessageId ds r.response_id ++
     detsByRequestId ds r.request_id ++
     detsByIndex ds (i + 1) ++
     detsByTraceId ds r.response_id)

/-- The `user_message` event pushed for a user chat message. -/
def mkUserEvent (ds : List Detection) (i : Nat) (m : ChatMessage) : Event :=
  { id := m.message_id
    timestamp := m.timestamp
    type := EventType.user_message
    agent := "User"
    content := m.content
    detections := userDetectionsFor ds i m
    request_id := m.request_id }

/-- `agentResponse.agent_id || agentResponse.agent`, the key passed to the
name service and stored on tool/response events. -/
def agentKey (r : AgentResponse) : String :=
  jsOr r.agent_id r.agent

/-- The `handoff` event pushed when `handoff_occurred && handoff_details`. -/
def mkHandoffEvent (cache : Cache) (r : AgentResponse) (hd : HandoffDetails) : Event :=
  { id := r.response_id ++ "-handoff"
    timestamp := r.timestamp - 100
    type := EventType.handoff
    agent := resolveName cache hd.from_agent
    content := "Handoff to " ++ resolveName cache hd.to_agent
    details := some
      { from_agent := some hd.from_agent
        from_agent_id := some hd.from_agent
        to_agent := some hd.to_agent
        to_agent_id := some hd.to_agent
        reason := some hd.reason
        handoff_type := some hd.handoff_type } }

/-- The `tool_call` event pushed for the `ti`-th tool usage of a resolved
response: with a handoff the timestamp is `handoffTime + 50 + 10 * ti`
(where `handoffTime = r.timestamp - 100`), else the source tool timestamp. -/
def mkToolEvent (cache : Cache) (r : AgentResponse) (ti : Nat) (t : ToolUsage) : Event :=
  { id := r.response_id ++ "-tool-" ++ toString ti
    timestamp := if r.handoff_occurred then r.timestamp - 100 + 50 + (ti : Int) * 10 else t.timestamp
    type := EventType.tool_call
    agent := resolveName cache (agentKey r)
    agent_id := some (agentKey r)
    content := "Using " ++ t.tool_name
    details := some
      { tool_name := some t.tool_name
        parameters := t.parameters
        result := t.result } }

/-- The `agent_response` event pushed for a resolved response. -/
def mkRespEvent (cache : Cache) (ds : List Detection) (i : Nat) (r : AgentResponse) : Event :=
  { id := r.response_id
    timestamp := r.timestamp
    type := EventType.agent_response
    agent := resolveName cache (agentKey r)
    agent_id := some (agentKey r)
    content := r.response
    duration := some r.duration_seconds
    detections := responseDetectionsFor ds i r
    request_id := r.request_id
    details := some { handoff_occurred := some r.handoff_occurred } }

/-- All events pushed while processing the chat message at ordinal `i`:
nothing for non-user roles; for a user message the `user_message` event,
then (when a response resolves) optional handoff, tool calls in order and
the response event. -/
def turnEvents (cache : Cache) (ds : List Detection) (rs : List AgentResponse)
    (i : Nat) (m : ChatMessage) : List Event :=
  if m.role = "user" then
    mkUserEvent ds i m ::
    (match resolveResponse rs m with
     | none => []
     | some r =>
       (match r.handoff_occurred, r.handoff_details with
        | true, some hd => [mkHandoffEvent cache r hd]
        | _, _ => []) ++
       (r.tools_used.enum.map (fun p => mkToolEvent cache r p.1 p.2)) ++
       [mkRespEvent cache ds i r])
  else []

/-- The base event sequence (the `events` array after the first pass). -/
def baseEvents (cache : Cache) (s : SessionData) : List Event :=
  (s.chat_history.enum).flatMap
    (fun p => turnEvents cache s.detections s.agent_responses p.1 p.2)

/-- The `violation` event synthesized for the `di`-th detection of an event. -/
def mkViolation (e : Event) (di : Nat) (d : Detection) : Event :=
  { id := e.id ++ "-violation-" ++ toString di
    timestamp := e.timestamp + 1 + (di : Int)
    type := EventType.violation
    agent := "Security Monitor"
    content :=
      (match d.detection_type with
       | some t => prettyTypeName t
       | none => "undefined") ++ " - " ++ ((jsTruthy d.context).getD "Security violation detected")
    severity := some ((jsTruthy d.severity).getD "medium")
    details := some
      { detection_type := d.detection_type
        context := d.context
        matchesList := some d.matchesList
        violation_id := some d.id } }

/-- Second pass: every event followed by one violation event per attached
detection (`eventsWithViolations`). -/
def withViolations (l : List Event) : List Event :=
  l.flatMap (fun e => e :: (e.detections.enum.map (fun p => mkViolation e p.1 p.2)))

/-- Stable insertion of an event into a timestamp-sorted list: the new
event goes after every element with a less-or-equal timestamp. -/
def insertByTs (e : Event) : List Event → List Event
  | [] => [e]
  | x :: xs => if x.timestamp ≤ e.timestamp then x :: insertByTs e xs else e :: x :: xs

/-- Stable sort by timestamp, the unique output of any stable sorting
algorithm under the comparator `(a, b) => ta - tb` (JS `Array.sort` is
stable). -/
def sortByTs (l : List Event) : List Event :=
  l.foldl (fun acc e => insertByTs e acc) []

/-- The Event Correlator: `processSessionData` restricted to its `events`
output (the `timelineEvents` projection carries no further logic). -/
def processSessionData (cache : Cache) (s : SessionData) : List Event :=
  sortByTs (withViolations (baseEvents cache s))

/-! ## Flow Reconstructor embeddings -/

/-- Filter applied by both graph components before any analysis:
violation events are visual-only and excluded. -/
def nonViolation (l : List Event) : List Event :=
  l.filter (fun e => decide (e.type ≠ EventType.violation))

/-- JS `Map.has` on an insertion-ordered association list. -/
def amapHas {κ ν : Type} [DecidableEq κ] (m : List (κ × ν)) (k : κ) : Bool :=
  m.any (fun p => decide (p.1 = k))

/-- JS `Map.get`: with the `amapSet` discipline keys are unique, so the
first entry with the key is the current value. -/
def amapGet {κ ν : Type} [DecidableEq κ] (m : List (κ × ν)) (k : κ) : Option ν :=
  (m.find? (fun p => decide (p.1 = k))).map Prod.snd

/-- JS `Map.set`: overwrite in place (iteration order keeps the original
insertion position), append when the key is new. -/
def amapSet {κ ν : Type} [DecidableEq κ] (m : List (κ × ν)) (k : κ) (v : ν) : List (κ × ν) :=
  if amapHas m k then m.map (fun p => if p.1 = k then (k, v) else p) else m ++ [(k, v)]

/-- JS `Set.add` (insertion-ordered, duplicate-free). -/
def setAdd {α : Type} [DecidableEq α] (l : List α) (x : α) : List α :=
  if x ∈ l then l else l ++ [x]

/-- The two identifier maps built by the first pass of
`SessionFlowGraph`'s `sessionFlow` analysis. -/
structure IdNameMaps where
  idToName : List (String × String)
  nameToId : List (String × String)
deriving DecidableEq, Repr

/-- First pass of `SessionFlowGraph`: an event carrying both a (truthy)
top-level `agent_id` and a display name contributes an authoritative
mapping, first occurrence of the id wins. -/
def firstPassStep (maps : IdNameMaps) (e : Event) : IdNameMaps :=
  if e.agent = "User" then maps
  else
    match jsTruthy e.agent_id with
    | none => maps
    | some aid =>
      if amapHas maps.idToName aid then maps
      else
        { idToName := amapSet maps.idToName aid e.agent
          nameToId := amapSet maps.nameToId e.agent aid }

/-- The authoritative `agent_id ↔ display name` maps over the
non-violation events. -/
def buildIdNameMaps (nv : List Event) : IdNameMaps :=
  nv.foldl firstPassStep { idToName := [], nameToId := [] }

/-- The guarded `addAgent` helper of the second pass (add only when the
key is new). -/
def addAgent (ua : List (String × String)) (k dn : String) : List (String × String) :=
  if amapHas ua k then ua else ua ++ [(k, dn)]

/-- Key resolution of the second pass: top-level `agent_id` when truthy,
else the display-name map, else the display name itself (degraded mode). -/
def resolveAgentKey (nameToId : List (String × String)) (e : Event) : String :=
  match jsTruthy e.agent_id with
  | some aid => aid
  | none =>
    match amapGet nameToId e.agent with
    | some mid => mid
    | none => e.agent

/-- Second pass of `SessionFlowGraph` for one event: the regular
(top-level) reference, then for handoff events the `from_agent_id` and
`to_agent_id` references from the details. -/
def secondPassStep (nameToId : List (String × String))
    (ua : List (String × String)) (e : Event) : List (String × String) :=
  let ua1 := if e.agent = "User" then ua else addAgent ua (resolveAgentKey nameToId e) e.agent
  if e.type = EventType.handoff then
    match e.details with
    | none => ua1
    | some det =>
      let ua2 :=
        match jsTruthy det.from_agent_id with
        | some fid => addAgent ua1 fid (jsOr det.from_agent fid)
        | none => ua1
      match jsTruthy det.to_agent_id with
      | some tid => addAgent ua2 tid (jsOr det.to_agent tid)
      | none => ua2
  else ua1

/-- The `uniqueAgents` map of the second pass. -/
def collectUniqueAgents (nameToId : List (String × String)) (nv : List Event) :
    List (String × String) :=
  nv.foldl (secondPassStep nameToId) []

/-- The participant map `flow.agents` of `SessionFlowGraph`
(`agent_id -> display_name`, seeded with the User entry). -/
def flowAgents (evs : List Event) : List (String × String) :=
  let nv := nonViolation evs
  let maps := buildIdNameMaps nv
  (collectUniqueAgents maps.nameToId nv).foldl (fun m p => amapSet m p.1 p.2) [("User", "User")]

/-- A JS string-or-undefined value as it flows through `MultiAgentFlow`
(handoff `from_agent`/`to_agent` may be absent). -/
abbrev JStr := Option String

/-- JS template-literal rendering used in connection keys:
`undefined` prints as the string `undefined`. -/
def jsTemplate : JStr → String
  | some s => s
  | none => "undefined"

/-- JS truthiness of a string-or-undefined value. -/
def jsTruthyJ : JStr → Bool
  | some s => decide (s ≠ "")
  | none => false

/-- `handoffMap.get(x) || y` in `MultiAgentFlow`. -/
def jsOrJ (v : Option JStr) (dflt : String) : JStr :=
  match v with
  | some (some s) => if s = "" then some dflt else some s
  | _ => some dflt

/-- One entry of a `SessionConnection.events` list. -/
structure Occurrence where
  index : Nat
  etype : String
  direction : Option String := none
deriving DecidableEq, Repr

/-- A `SessionConnection` of `MultiAgentFlow` (`from`/`to` are renamed
`cFrom`/`cTo` because `from` is a Lean keyword). -/
structure Connection where
  ctype : String
  cFrom : JStr
  cTo : JStr
  events : List Occurrence
  isBidirectional : Bool
deriving DecidableEq, Repr

/-- Phase-1 state of `MultiAgentFlow`'s session flow state machine. -/
structure MAFPhase1 where
  outerAgents : List JStr
  actualAgents : List JStr
  toolNames : List String
  handoffMap : List (JStr × JStr)
deriving DecidableEq, Repr

/-- Phase 1 of `MultiAgentFlow` for one event: classify agent roles, tool
names and the `actual -> outer` handoff map. -/
def mafPhase1Step (st : MAFPhase1) (e : Event) : MAFPhase1 :=
  match e.type, e.details with
  | EventType.handoff, some det =>
    { st with
      outerAgents := setAdd st.outerAgents det.from_agent
      actualAgents := setAdd st.actualAgents det.to_agent
      handoffMap := amapSet st.handoffMap det.to_agent det.from_agent }
  | EventType.handoff, none => st
  | _, _ =>
    if e.type = EventType.tool_call then
      match jsTruthy (e.details.bind (fun d => d.tool_name)) with
      | some tn => { st with toolNames := setAdd st.toolNames tn }
      | none => st
    else if e.type = EventType.user_message ∨ e.type = EventType.agent_response then
      if e.agent ≠ "User" ∧ ¬ (some e.agent ∈ st.actualAgents) then
        { st with outerAgents := setAdd st.outerAgents (some e.agent) }
      else st
    else st

/-- The phase-1 state over the non-violation events. -/
def mafPhase1 (nv : List Event) : MAFPhase1 :=
  nv.foldl mafPhase1Step { outerAgents := [], actualAgents := [], toolNames := [], handoffMap := [] }

/-- `addConnection` of `MultiAgentFlow`: reuse the existing key or its
reverse when present, else create a connection at the forward key;
bidirectionality is fixed at creation from the connection type. -/
def addConnection (st : List (String × Connection)) (t : String) (f tto : JStr)
    (idx : Nat) (et : String) (dir : Option String) : List (String × Connection) :=
  let key := jsTemplate f ++ "-" ++ jsTemplate tto
  let rkey := jsTemplate tto ++ "-" ++ jsTemplate f
  let ekey := if amapHas st key then key else if amapHas st rkey then rkey else key
  match amapGet st ekey with
  | some c =>
    amapSet st ekey
      { c with events := c.events ++ [{ index := idx, etype := et, direction := dir }] }
  | none =>
    amapSet st ekey
      { ctype := t, cFrom := f, cTo := tto
        events := [{ index := idx, etype := et, direction := dir }]
        isBidirectional := t == "user-outer" || t == "outer-actual" }

/-- Phase 3 of `MultiAgentFlow` for the event at (non-violation) index
`i`: establish connections per the session-flow grammar. -/
def mafStep (hmap : List (JStr × JStr)) (nv : List Event)
    (st : List (String × Connection)) (p : Nat × Event) : List (String × Connection) :=
  let i := p.1
  let e := p.2
  match e.type with
  | EventType.user_message =>
    match (nv.drop (i + 1)).find? (fun x => x.type == EventType.agent_response) with
    | some nr =>
      addConnection st "user-outer" (some "User") (jsOrJ (amapGet hmap (some nr.agent)) nr.agent)
        i "user_message" (some "forward")
    | none => st
  | EventType.handoff =>
    match e.details with
    | some det => addConnection st "outer-actual" det.from_agent det.to_agent i "handoff" (some "forward")
    | none => st
  | EventType.tool_call =>
    match jsTruthy (e.details.bind (fun d => d.tool_name)) with
    | some tn =>
      amapSet st (e.agent ++ "-" ++ tn)
        { ctype := "agent-tool", cFrom := some e.agent, cTo := some tn
          events := [{ index := i, etype := "tool_call" }]
          isBidirectional := false }
    | none => st
  | EventType.agent_response =>
    match amapGet hmap (some e.agent) with
    | some fa =>
      if jsTruthyJ fa then
        addConnection
          (addConnection st "outer-actual" fa (some e.agent) i "agent_response" (some "backward"))
          "user-outer" (some "User") fa i "agent_response" (some "backward")
      else
        addConnection st "user-outer" (some "User") (some e.agent) i "agent_response" (some "backward")
    | none =>
      addConnection st "user-outer" (some "User") (some e.agent) i "agent_response" (some "backward")
  | EventType.violation => st

/-- The connection map of `MultiAgentFlow`'s session flow state. -/
def mafConnections (evs : List Event) : List (String × Connection) :=
  let nv := nonViolation evs
  ((nv.enum).foldl (mafStep (mafPhase1 nv).handoffMap nv) [])

/-- The `toolCallPath` key set built when the current event is a tool
call: the agent-tool key, then (when a resolved, truthy outer agent
exists) the first outer-actual key into the agent and the first
user-outer key into that outer agent, else the first user-outer key
into the agent itself. -/
def toolCallPathKeys (conns : List (String × Connection)) (evs : List Event) (ci : Nat) :
    List String :=
  match evs.get? ci with
  | none => []
  | some ce =>
    if ce.type = EventType.tool_call then
      match jsTruthy (ce.details.bind (fun d => d.tool_name)) with
      | none => []
      | some tn =>
        let an := ce.agent
        let base := [an ++ "-" ++ tn]
        match (conns.find? (fun p => p.2.ctype == "outer-actual" && p.2.cTo == some an)).map
            (fun p => p.2.cFrom) with
        | some fa =>
          if jsTruthyJ fa then
            base ++
            ((conns.find? (fun p => p.2.ctype == "outer-actual" && p.2.cTo == some an)).map
              Prod.fst).toList ++
            ((conns.find? (fun p => p.2.ctype == "user-outer" && p.2.cTo == fa)).map
              Prod.fst).toList
          else
            base ++
            ((conns.find? (fun p => p.2.ctype == "user-outer" && p.2.cTo == some an)).map
              Prod.fst).toList
        | none =>
          base ++
          ((conns.find? (fun p => p.2.ctype == "user-outer" && p.2.cTo == some an)).map
            Prod.fst).toList
    else []

/-- One rendered edge of `MultiAgentFlow` (the replay-relevant fields:
connection key, endpoints after direction flipping, activity flags). -/
structure FlowEdge where
  key : String
  source : JStr
  target : JStr
  active : Bool
  grayDotted : Bool
deriving DecidableEq, Repr

/-- The edge list computed from the connection map and the current
cursor: an edge is active on a direct occurrence of the cursor index or
via the tool-call path; active bidirectional non-tool edges with a
non-forward matched occurrence are rendered flipped. -/
def initialEdges (conns : List (String × Connection)) (evs : List Event) (ci : Nat) :
    List FlowEdge :=
  let isToolCursor :=
    match evs.get? ci with
    | some ce => ce.type == EventType.tool_call
    | none => false
  let path := toolCallPathKeys conns evs ci
  conns.map (fun p =>
    let c := p.2
    let currentMatch := c.events.find? (fun o => o.index == ci)
    let hasPast := c.events.any (fun o => decide (o.index ≤ ci))
    let isPartOfPath := isToolCursor && path.contains p.1
    let act := currentMatch.isSome || isPartOfPath
    let flip := act && !(c.ctype == "agent-tool") && c.isBidirectional &&
      (match currentMatch with
       | some m => !(m.direction == some "forward")
       | none => false)
    { key := p.1
      source := if flip then c.cTo else c.cFrom
      target := if flip then c.cFrom else c.cTo
      active := act
      grayDotted := hasPast && !act })

/-! ## Derived predicates used in theorem statements -/

/-- Ordering predicate of the output sort: non-decreasing timestamps. -/
def tsLE (a b : Event) : Prop := a.timestamp ≤ b.timestamp

/-- Every agent identifier the correlator may pass to the name service
while processing a transcript: the response agent key, and the handoff
source/target ids. -/
def nameKeysOf (s : SessionData) : List String :=
  s.agent_responses.flatMap (fun r =>
    agentKey r ::
    (match r.handoff_details with
     | some hd => [hd.from_agent, hd.to_agent]
     | none => []))

/-- The user-role turns of a transcript with their chat ordinals. -/
def userTurns (s : SessionData) : List (Nat × ChatMessage) :=
  s.chat_history.enum.filter (fun p => decide (p.2.role = "user"))

/-- Every key with which the correlator probes the `message_id` detection
map: user message ids and resolved response ids. -/
def probeMsgIds (s : SessionData) : List String :=
  (userTurns s).flatMap (fun p =>
    p.2.message_id ::
    (match resolveResponse s.agent_responses p.2 with
     | some r => [r.response_id]
     | none => []))

/-- Every truthy key with which the correlator probes the `request_id`
detection map. -/
def probeReqIds (s : SessionData) : List String :=
  (userTurns s).flatMap (fun p =>
    (jsTruthy p.2.request_id).toList ++
    (match resolveResponse s.agent_responses p.2 with
     | some r => (jsTruthy r.request_id).toList
     | none => []))

/-- Every ordinal with which the correlator probes the `message_index`
detection map. -/
def probeIdxs (s : SessionData) : List Nat :=
  (userTurns s).flatMap (fun p =>
    p.1 ::
    (match resolveResponse s.agent_responses p.2 with
     | some _ => [p.1 + 1]
     | none => []))

/-- Every key with which the correlator probes the `trace_id` detection
map. -/
def probeTraceIds (s : SessionData) : List String :=
  (userTurns s).flatMap (fun p =>
    (jsOr p.2.request_id p.2.message_id) ::
    (match resolveResponse s.agent_responses p.2 with
     | some r => [r.response_id]
     | none => []))

/-- Strings free of the dash used as the connection-key separator. -/
def noDashStr (s : String) : Prop := '-' ∉ s.data

/-- Every value that can reach an agent-side endpoint of a
`MultiAgentFlow` connection: User, top-level agent names, and the
handoff from/to fields. -/
def mafSides (evs : List Event) : List JStr :=
  some "User" :: (nonViolation evs).flatMap (fun e =>
    some e.agent ::
    (if e.type = EventType.handoff then
       (match e.details with
        | some det => [det.from_agent, det.to_agent]
        | none => [])
     else []))

/-- Every tool name that can reach a tool-side endpoint of a
`MultiAgentFlow` connection. -/
def mafToolNames (evs : List Event) : List String :=
  (nonViolation evs).flatMap (fun e =>
    if e.type = EventType.tool_call then
      (jsTruthy (e.details.bind (fun d => d.tool_name))).toList
    else [])

/-- Structural invariant of the `MultiAgentFlow` connection map: keys
are the rendered `from-to` pair, agent-tool connections run from an
agent-side endpoint to a tool and carry only direction-free `tool_call`
occurrences, and the bidirectional types have agent-side endpoints. -/
def ConnInv (sides : List JStr) (tools : List String) (m : List (String × Connection)) : Prop :=
  ∀ p ∈ m,
    p.1 = jsTemplate p.2.cFrom ++ "-" ++ jsTemplate p.2.cTo ∧
    (p.2.ctype = "agent-tool" →
       p.2.cFrom ∈ sides ∧ p.2.cTo ∈ tools.map some ∧ p.2.isBidirectional = false ∧
       ∀ o ∈ p.2.events, o.etype = "tool_call" ∧ o.direction = none) ∧
    (p.2.ctype ≠ "agent-tool" → p.2.cFrom ∈ sides ∧ p.2.cTo ∈ sides)

/-- A connection records an occurrence at the given cursor index. -/
def connHasIndex (c : Connection) (ci : Nat) : Prop :=
  ∃ o ∈ c.events, o.index = ci

/-- The event at the cursor exists and is a tool call. -/
def cursorIsToolCall (evs : List Event) (ci : Nat) : Prop :=
  ∃ ce, evs.get? ci = some ce ∧ ce.type = EventType.tool_call

/-! ## Concrete instances for counterexamples and witnesses -/

/-- The empty agent-name cache. -/
def noCache : Cache := fun _ => none

def exC1msg : ChatMessage :=
  { role := "user", content := "hi", timestamp := 0, message_id := "m1", request_id := some "r1" }

def exC1resp : AgentResponse :=
  { timestamp := 1000, agent := "a", response := "ok", response_id := "p1", request_id := some "r1" }

def exD7 : Detection :=
  { id := 7, detection_type := some "pii_leak", request_id := some "r1" }

/-- One user turn, its paired response, and one detection that carries
only the shared `request_id`. -/
def exC1 : SessionData :=
  { chat_history := [exC1msg], agent_responses := [exC1resp], detections := [exD7] }

/-- One user turn with a detection on the user message, whose paired
response records a handoff; the synthesized handoff timestamp
(`response - 100ms`) coincides with the user message timestamp. -/
def exC2 : SessionData :=
  { chat_history := [{ role := "user", timestamp := 0, message_id := "m1", request_id := some "r1" }]
    agent_responses :=
      [{ timestamp := 100, agent := "a", response_id := "p1", request_id := some "r1",
         handoff_occurred := true,
         handoff_details := some { from_agent := "b1", to_agent := "a1" } }]
    detections := [{ id := 3, detection_type := some "x", message_id := some "m1" }] }

/-- One resolved turn without handoff whose single tool usage carries a
source timestamp after the response timestamp. -/
def exC3 : SessionData :=
  { chat_history := [{ role := "user", timestamp := 0, message_id := "m1", request_id := some "r1" }]
    agent_responses :=
      [{ timestamp := 1000, agent := "a", response_id := "p1", request_id := some "r1",
         tools_used := [{ tool_name := "search", timestamp := 2000 }] }] }

def exTool : ToolUsage := { tool_name := "search", timestamp := 2000 }

def exHd : HandoffDetails := { from_agent := "b1", to_agent := "a1" }

def exRhand : AgentResponse :=
  { timestamp := 1000, agent := "a", response_id := "p9", request_id := some "r9",
    handoff_occurred := true, handoff_details := some exHd, tools_used := [exTool] }

/-- One resolved turn whose response carries a stable `agent_id`. -/
def exC4 : SessionData :=
  { chat_history := [exC1msg]
    agent_responses :=
      [{ timestamp := 1000, agent := "ag", response_id := "p1", request_id := some "r1",
         agent_id := some "a1" }] }

/-- A cache state holding a fresh display name for `a1`. -/
def cacheAlice : Cache := fun a => if a = "a1" then some "Alice" else none

/-- A cache state agreeing with `cacheAlice` on `a1` only. -/
def cacheB : Cache := fun a => if a = "a1" then some "Alice" else some "Other"

/-- Two turns whose responses hand off from the outer agent `bravo_one`
(which never responds itself) to the actual agent `a1`. -/
def exC5 : SessionData :=
  { chat_history :=
      [{ role := "user", timestamp := 0, message_id := "m1", request_id := some "r1" },
       { role := "user", timestamp := 2000, message_id := "m2", request_id := some "r2" }]
    agent_responses :=
      [{ timestamp := 1000, agent := "a1x", response_id := "p1", request_id := some "r1",
         agent_id := some "a1", handoff_occurred := true,
         handoff_details := some { from_agent := "bravo_one", to_agent := "a1" } },
       { timestamp := 3000, agent := "a1x", response_id := "p2", request_id := some "r2",
         agent_id := some "a1", handoff_occurred := true,
         handoff_details := some { from_agent := "bravo_one", to_agent := "a1" } }] }

/-- Events whose participant names make the string keys `x-y-z`
ambiguous: agent `x` calls tool `y-z`, and a handoff runs from `x-y`
to `z`. -/
def evC6 : List Event :=
  [{ id := "t0", timestamp := 0, type := EventType.tool_call, agent := "x",
     details := some { tool_name := some "y-z" } },
   { id := "h1", timestamp := 1, type := EventType.handoff, agent := "X-Y",
     details := some { from_agent := some "x-y", to_agent := some "z" } },
   { id := "p2", timestamp := 2, type := EventType.agent_response, agent := "z" }]

/-- Dash-free events: handoff `o -> x`, then agent `x` calls tool `T`
and responds. -/
def evW6 : List Event :=
  [{ id := "h", timestamp := 0, type := EventType.handoff, agent := "o",
     details := some { from_agent := some "o", to_agent := some "x" } },
   { id := "t", timestamp := 1, type := EventType.tool_call, agent := "x",
     details := some { tool_name := some "T" } },
   { id := "p", timestamp := 2, type := EventType.agent_response, agent := "x" }]

/-- An agent referenced by id-with-name in one event and by display name
only in another. -/
def evW5 : List Event :=
  [{ id := "e1", timestamp := 0, type := EventType.agent_response, agent := "Alice",
     agent_id := some "a9" },
   { id := "e2", timestamp := 1, type := EventType.tool_call, agent := "Alice",
     details := some { tool_name := some "t" } }]

def exM7 : ChatMessage :=
  { role := "user", timestamp := 0, message_id := "m7", request_id := some "rX" }

def exRs7 : List AgentResponse :=
  [{ timestamp := 5, agent := "a", response_id := "p", request_id := some "rOther",
     trace_id := some "tZ" }]

/-- A detection none of whose identifiers matches any probe key of `exC8`. -/
def exD9 : Detection :=
  { id := 9, message_id := some "zz", request_id := some "qq", message_index := some 50,
    trace_id := some "ww" }

def exC8 : SessionData :=
  { chat_history := [exC1msg], agent_responses := [exC1resp], detections := [exD9] }

/-- The edge generated for the `x-y-z` connection of `evC6` at cursor 0. -/
def exEdge9 : FlowEdge :=
  { key := "x-y-z", source := some "x", target := some "y-z", active := true, grayDotted := false }

def exAsstMsg : ChatMessage := { role := "assistant", timestamp := 0, message_id := "a0" }

/-- An assistant chat message followed by a resolved user turn. -/
def exC10 : SessionData :=
  { chat_history :=
      [exAsstMsg,
       { role := "user", timestamp := 1, message_id := "m1", request_id := some "r1" }]
    agent_responses := [exC1resp] }

def exRespEv : Event := mkRespEvent noCache exC10.detections 1 exC1resp

/-- The single occurrence recorded on the agent-tool connection of `evW6`. -/
def oW6 : Occurrence := { index := 1, etype := "tool_call", direction := none }

/-- The agent-tool connection entry built from `evW6`. -/
def cW6 : String × Connection :=
  ("x-T", { ctype := "agent-tool", cFrom := some "x", cTo := some "T",
            events := [oW6], isBidirectional := false })

/-- The rendered edge for the `x-T` connection of `evW6` at cursor 1. -/
def edW6 : FlowEdge :=
  { key := "x-T", source := some "x", target := some "T", active := true, grayDotted := false }

/-! ## General lemmas -/

theorem foldl_preserve {α β : Type} (P : β → Prop) (f : β → α → β) :
    ∀ (l : List α) (init : β), P init → (∀ b a, a ∈ l → P b → P (f b a)) → P (l.foldl f init) := by
  intro l
  induction l with
  | nil => intro init h0 _; exact h0
  | cons x xs ih =>
    intro init h0 hstep
    exact ih (f init x) (hstep init x (List.mem_cons_self x xs) h0)
      (fun b a ha hb => hstep b a (List.mem_cons_of_mem _ ha) hb)

theorem flatMap_congr {α β : Type} {l : List α} {f g : α → List β}
    (h : ∀ x ∈ l, f x = g x) : l.flatMap f = l.flatMap g := by
  induction l with
  | nil => rfl
  | cons x xs ih =>
    simp only [List.flatMap_cons, h x (List.mem_cons_self x xs)]
    rw [ih (fun y hy => h y (List.mem_cons_of_mem _ hy))]

theorem mem_insertByTs {e a : Event} :
    ∀ {l : List Event}, a ∈ insertByTs e l ↔ a = e ∨ a ∈ l := by
  intro l
  induction l with
  | nil => simp [insertByTs]
  | cons x xs ih =>
    by_cases h : x.timestamp ≤ e.timestamp
    · simp only [insertByTs, if_pos h, List.mem_cons, ih]
      tauto
    · simp only [insertByTs, if_neg h, List.mem_cons]

theorem mem_sortByTs_aux {a : Event} :
    ∀ (l acc : List Event),
      (a ∈ l.foldl (fun acc e => insertByTs e acc) acc ↔ a ∈ acc ∨ a ∈ l) := by
  intro l
  induction l with
  | nil => simp
  | cons x xs ih =>
    intro acc
    simp only [List.foldl_cons, List.mem_cons]
    rw [ih (insertByTs x acc), mem_insertByTs]
    tauto

theorem mem_sortByTs {a : Event} {l : List Event} : a ∈ sortByTs l ↔ a ∈ l := by
  unfold sortByTs
  rw [mem_sortByTs_aux]
  simp

theorem pairwise_insertByTs {e : Event} :
    ∀ {l : List Event}, List.Pairwise tsLE l → List.Pairwise tsLE (insertByTs e l) := by
  intro l
  induction l with
  | nil =>
    intro _
    simp [insertByTs, tsLE]
  | cons x xs ih =>
    intro h
    rcases List.pairwise_cons.mp h with ⟨hx, hxs⟩
    by_cases hle : x.timestamp ≤ e.timestamp
    · simp only [insertByTs, if_pos hle]
      refine List.pairwise_cons.mpr ⟨?_, ih hxs⟩
      intro y hy
      rcases mem_insertByTs.mp hy with rfl | hy'
      · exact hle
      · exact hx y hy'
    · simp only [insertByTs, if_neg hle]
      refine List.pairwise_cons.mpr ⟨?_, h⟩
      intro y hy
      rcases List.mem_cons.mp hy with rfl | hy'
      · show e.timestamp ≤ y.timestamp
        omega
      · have h1 : e.timestamp ≤ x.timestamp := by omega
        exact le_trans h1 (hx y hy')

theorem pairwise_sortByTs_aux :
    ∀ (l acc : List Event), List.Pairwise tsLE acc →
      List.Pairwise tsLE (l.foldl (fun acc e => insertByTs e acc) acc) := by
  intro l
  induction l with
  | nil => intro acc h; exact h
  | cons x xs ih => intro acc h; exact ih _ (pairwise_insertByTs h)

theorem pairwise_sortByTs (l : List Event) : List.Pairwise tsLE (sortByTs l) :=
  pairwise_sortByTs_aux l [] List.Pairwise.nil

theorem pairwise_le_of_get :
    ∀ {l : List Event}, List.Pairwise tsLE l →
      ∀ (i j : Nat) (a b : Event), i ≤ j → l.get? i = some a → l.get? j = some b →
        a.timestamp ≤ b.timestamp := by
  intro l
  induction l with
  | nil =>
    intro _ i j a b _ ha _
    simp at ha
  | cons x xs ih =>
    intro h i j a b hij ha hb
    rcases List.pairwise_cons.mp h with ⟨hx, hxs⟩
    match i, j with
    | 0, 0 =>
      simp only [List.get?_cons_zero, Option.some.injEq] at ha hb
      subst ha; subst hb
      exact le_refl _
    | 0, j + 1 =>
      simp only [List.get?_cons_zero, Option.some.injEq] at ha
      simp only [List.get?_cons_succ] at hb
      subst ha
      exact hx b (List.get?_mem hb)
    | i + 1, j + 1 =>
      simp only [List.get?_cons_succ] at ha hb
      exact ih hxs i j a b (Nat.le_of_succ_le_succ hij) ha hb

theorem dedupGo_mem :
    ∀ (seen l : List Detection) (x : Detection), x ∈ dedupGo seen l → x ∈ l := by
  intro seen l
  induction l generalizing seen with
  | nil => intro x hx; simp [dedupGo] at hx
  | cons d rest ih =>
    intro x hx
    by_cases hs : seen.any (fun e => detEq e d)
    · simp only [dedupGo, if_pos hs] at hx
      exact List.mem_cons_of_mem _ (ih _ x hx)
    · simp only [dedupGo, if_neg hs, List.mem_cons] at hx
      rcases hx with rfl | hx'
      · exact List.mem_cons_self _ _
      · exact List.mem_cons_of_mem _ (ih _ x hx')

theorem dedupGo_not_seen :
    ∀ (seen l : List Detection) (x : Detection), x ∈ dedupGo seen l →
      ∀ y ∈ seen, detEq y x = false := by
  intro seen l
  induction l generalizing seen with
  | nil => intro x hx; simp [dedupGo] at hx
  | cons d rest ih =>
    intro x hx y hy
    by_cases hs : seen.any (fun e => detEq e d)
    · simp only [dedupGo, if_pos hs] at hx
      exact ih _ x hx y (List.mem_append_left _ hy)
    · simp only [dedupGo, if_neg hs, List.mem_cons] at hx
      rcases hx with rfl | hx'
      · cases hdx : detEq y x with
        | false => rfl
        | true => exact absurd (List.any_eq_true.mpr ⟨y, hy, hdx⟩) hs
      · exact ih _ x hx' y (List.mem_append_left _ hy)

theorem dedupGo_pairwise :
    ∀ (seen l : List Detection),
      List.Pairwise (fun a b => detEq a b = false) (dedupGo seen l) := by
  intro seen l
  induction l generalizing seen with
  | nil => simp [dedupGo]
  | cons d rest ih =>
    by_cases hs : seen.any (fun e => detEq e d)
    · simp only [dedupGo, if_pos hs]
      exact ih _
    · simp only [dedupGo, if_neg hs]
      refine List.pairwise_cons.mpr ⟨?_, ih _⟩
      intro y hy
      exact dedupGo_not_seen _ _ y hy d (List.mem_append_right _ (List.mem_cons_self _ _))

theorem dedup_mem {l : List Detection} {x : Detection} (h : x ∈ dedupDetections l) : x ∈ l :=
  dedupGo_mem [] l x h

theorem dedup_pairwise (l : List Detection) :
    List.Pairwise (fun a b => detEq a b = false) (dedupDetections l) :=
  dedupGo_pairwise [] l

theorem mkUserEvent_type (ds : List Detection) (i : Nat) (m : ChatMessage) :
    (mkUserEvent ds i m).type = EventType.user_message := rfl

theorem mkRespEvent_type (cache : Cache) (ds : List Detection) (i : Nat) (r : AgentResponse) :
    (mkRespEvent cache ds i r).type = EventType.agent_response := rfl

theorem mkHandoffEvent_type (cache : Cache) (r : AgentResponse) (hd : HandoffDetails) :
    (mkHandoffEvent cache r hd).type = EventType.handoff := rfl

theorem mkToolEvent_type (cache : Cache) (r : AgentResponse) (ti : Nat) (t : ToolUsage) :
    (mkToolEvent cache r ti t).type = EventType.tool_call := rfl

theorem mkViolation_type (e : Event) (di : Nat) (d : Detection) :
    (mkViolation e di d).type = EventType.violation := rfl

theorem mkViolation_timestamp (e : Event) (di : Nat) (d : Detection) :
    (mkViolation e di d).timestamp = e.timestamp + 1 + (di : Int) := rfl

theorem mkViolation_detections (e : Event) (di : Nat) (d : Detection) :
    (mkViolation e di d).detections = [] := rfl

theorem mem_turnEvents {cache : Cache} {ds : List Detection} {rs : List AgentResponse}
    {i : Nat} {m : ChatMessage} {e : Event} (h : e ∈ turnEvents cache ds rs i m) :
    m.role = "user" ∧
    (e = mkUserEvent ds i m ∨
     ∃ r, resolveResponse rs m = some r ∧
       (e = mkRespEvent cache ds i r ∨
        (∃ hd, r.handoff_occurred = true ∧ r.handoff_details = some hd ∧
          e = mkHandoffEvent cache r hd) ∨
        (∃ p ∈ r.tools_used.enum, e = mkToolEvent cache r p.1 p.2))) := by
  by_cases hrole : m.role = "user"
  · refine ⟨hrole, ?_⟩
    rw [turnEvents, if_pos hrole] at h
    cases hres : resolveResponse rs m with
    | none =>
      rw [hres] at h
      simp only [List.mem_cons, List.not_mem_nil, or_false] at h
      exact Or.inl h
    | some r =>
      rw [hres] at h
      rcases List.mem_cons.mp h with rfl | h1
      · exact Or.inl rfl
      · right
        refine ⟨r, rfl, ?_⟩
        rcases List.mem_append.mp h1 with h2 | h3
        · rcases List.mem_append.mp h2 with hh | htool
          · right; left
            cases hoc : r.handoff_occurred with
            | false => rw [hoc] at hh; simp at hh
            | true =>
              rw [hoc] at hh
              cases hhd : r.handoff_details with
              | none => rw [hhd] at hh; simp at hh
              | some hd =>
                rw [hhd] at hh
                simp only [List.mem_singleton] at hh
                exact ⟨hd, rfl, rfl, hh⟩
          · right; right
            rcases List.mem_map.mp htool with ⟨p, hp, hpe⟩
            exact ⟨p, hp, hpe.symm⟩
        · simp only [List.mem_singleton] at h3
          exact Or.inl h3
  · rw [turnEvents, if_neg hrole] at h
    simp at h

theorem turnEvents_intro {cache : Cache} {s : SessionData} {p : Nat × ChatMessage} {e : Event}
    (hp : p ∈ s.chat_history.enum)
    (he : e ∈ turnEvents cache s.detections s.agent_responses p.1 p.2) :
    e ∈ baseEvents cache s := by
  unfold baseEvents
  exact List.mem_flatMap.mpr ⟨p, hp, he⟩

theorem mem_baseEvents {cache : Cache} {s : SessionData} {e : Event}
    (h : e ∈ baseEvents cache s) :
    ∃ p ∈ s.chat_history.enum,
      e ∈ turnEvents cache s.detections s.agent_responses p.1 p.2 := by
  unfold baseEvents at h
  exact List.mem_flatMap.mp h

theorem base_mem_withViolations {l : List Event} {b : Event} (hb : b ∈ l) :
    b ∈ withViolations l := by
  unfold withViolations
  exact List.mem_flatMap.mpr ⟨b, hb, List.mem_cons_self _ _⟩

theorem violation_mem_withViolations {l : List Event} {b : Event} {p : Nat × Detection}
    (hb : b ∈ l) (hp : p ∈ b.detections.enum) :
    mkViolation b p.1 p.2 ∈ withViolations l := by
  unfold withViolations
  exact List.mem_flatMap.mpr ⟨b, hb, List.mem_cons_of_mem _ (List.mem_map.mpr ⟨p, hp, rfl⟩)⟩

theorem mem_withViolations {l : List Event} {e : Event} (h : e ∈ withViolations l) :
    e ∈ l ∨ ∃ b ∈ l, ∃ p ∈ b.detections.enum, e = mkViolation b p.1 p.2 := by
  unfold withViolations at h
  rcases List.mem_flatMap.mp h with ⟨b, hb, hx⟩
  rcases List.mem_cons.mp hx with rfl | hx'
  · exact Or.inl hb
  · rcases List.mem_map.mp hx' with ⟨p, hp, hpe⟩
    exact Or.inr ⟨b, hb, p, hp, hpe.symm⟩

theorem respByRequestId_mem {rs : List AgentResponse} {k : Option String} {r : AgentResponse}
    (h : respByRequestId rs k = some r) : r ∈ rs := by
  unfold respByRequestId at h
  cases hk : jsTruthy k with
  | none => rw [hk] at h; simp at h
  | some key =>
    rw [hk] at h
    exact List.mem_of_mem_filter (List.mem_of_mem_getLast? h)

theorem respByTraceId_mem {rs : List AgentResponse} {key : String} {r : AgentResponse}
    (h : respByTraceId rs key = some r) : r ∈ rs :=
  List.mem_of_mem_filter (List.mem_of_mem_getLast? h)

theorem resolveResponse_mem {rs : List AgentResponse} {m : ChatMessage} {r : AgentResponse}
    (h : resolveResponse rs m = some r) : r ∈ rs := by
  unfold resolveResponse at h
  cases hq : respByRequestId rs m.request_id with
  | some r' =>
    rw [hq] at h
    cases h
    exact respByRequestId_mem hq
  | none =>
    rw [hq] at h
    by_cases hmid : m.message_id = ""
    · rw [if_pos hmid] at h; cases h
    · rw [if_neg hmid] at h
      exact respByTraceId_mem h

theorem mem_detsByMessageId {ds : List Detection} {key : String} {d : Detection}
    (h : d ∈ detsByMessageId ds key) : d ∈ ds ∧ jsTruthy d.message_id = some key := by
  refine ⟨List.mem_of_mem_filter h, ?_⟩
  have := List.of_mem_filter h
  simpa using this

theorem mem_detsByRequestId {ds : List Detection} {k : Option String} {d : Detection}
    (h : d ∈ detsByRequestId ds k) :
    d ∈ ds ∧ ∃ key, jsTruthy k = some key ∧ jsTruthy d.request_id = some key := by
  unfold detsByRequestId at h
  cases hk : jsTruthy k with
  | none => rw [hk] at h; simp at h
  | some key =>
    rw [hk] at h
    refine ⟨List.mem_of_mem_filter h, key, rfl, ?_⟩
    have := List.of_mem_filter h
    simpa using this

theorem mem_detsByIndex {ds : List Detection} {i : Nat} {d : Detection}
    (h : d ∈ detsByIndex ds i) : d ∈ ds ∧ d.message_index = some i := by
  refine ⟨List.mem_of_mem_filter h, ?_⟩
  have := List.of_mem_filter h
  simpa using this

theorem mem_detsByTraceId {ds : List Detection} {key : String} {d : Detection}
    (h : d ∈ detsByTraceId ds key) : d ∈ ds ∧ jsTruthy d.trace_id = some key := by
  refine ⟨List.mem_of_mem_filter h, ?_⟩
  have := List.of_mem_filter h
  simpa using this

theorem mem_userDetectionsFor {ds : List Detection} {i : Nat} {m : ChatMessage} {d : Detection}
    (h : d ∈ userDetectionsFor ds i m) :
    d ∈ ds ∧
    (jsTruthy d.message_id = some m.message_id ∨
     (∃ key, jsTruthy m.request_id = some key ∧ jsTruthy d.request_id = some key) ∨
     d.message_index = some i ∨
     jsTruthy d.trace_id = some (jsOr m.request_id m.message_id)) := by
  have h1 := dedup_mem h
  rcases List.mem_append.mp h1 with h2 | h4
  · rcases List.mem_append.mp h2 with h3 | h5
    · rcases List.mem_append.mp h3 with ha | hb
      · rcases mem_detsByMessageId ha with ⟨hm, hk⟩
        exact ⟨hm, Or.inl hk⟩
      · rcases mem_detsByRequestId hb with ⟨hm, hk⟩
        exact ⟨hm, Or.inr (Or.inl hk)⟩
    · rcases mem_detsByIndex h5 with ⟨hm, hk⟩
      exact ⟨hm, Or.inr (Or.inr (Or.inl hk))⟩
  · rcases mem_detsByTraceId h4 with ⟨hm, hk⟩
    exact ⟨hm, Or.inr (Or.inr (Or.inr hk))⟩

theorem mem_responseDetectionsFor {ds : List Detection} {i : Nat} {r : AgentResponse}
    {d : Detection} (h : d ∈ responseDetectionsFor ds i r) :
    d ∈ ds ∧
    (jsTruthy d.message_id = some r.response_id ∨
     (∃ key, jsTruthy r.request_id = some key ∧ jsTruthy d.request_id = some key) ∨
     d.message_index = some (i + 1) ∨
     jsTruthy d.trace_id = some r.response_id) := by
  have h1 := dedup_mem h
  rcases List.mem_append.mp h1 with h2 | h4
  · rcases List.mem_append.mp h2 with h3 | h5
    · rcases List.mem_append.mp h3 with ha | hb
      · rcases mem_detsByMessageId ha with ⟨hm, hk⟩
        exact ⟨hm, Or.inl hk⟩
      · rcases mem_detsByRequestId hb with ⟨hm, hk⟩
        exact ⟨hm, Or.inr (Or.inl hk)⟩
    · rcases mem_detsByIndex h5 with ⟨hm, hk⟩
      exact ⟨hm, Or.inr (Or.inr (Or.inl hk))⟩
  · rcases mem_detsByTraceId h4 with ⟨hm, hk⟩
    exact ⟨hm, Or.inr (Or.inr (Or.inr hk))⟩

theorem detections_shape {cache : Cache} {s : SessionData} {e : Event}
    (h : e ∈ withViolations (baseEvents cache s)) :
    e.detections = [] ∨ ∃ l, e.detections = dedupDetections l := by
  rcases mem_withViolations h with hb | ⟨b, _, p, _, rfl⟩
  · rcases mem_baseEvents hb with ⟨q, _, ht⟩
    rcases (mem_turnEvents ht).2 with rfl | ⟨r, _, hshape⟩
    · exact Or.inr ⟨_, rfl⟩
    · rcases hshape with rfl | ⟨hd, _, _, rfl⟩ | ⟨pp, _, rfl⟩
      · exact Or.inr ⟨_, rfl⟩
      · exact Or.inl rfl
      · exact Or.inl rfl
  · exact Or.inl rfl

/-- Claim C1, amended.  Within every event of the correlator's output,
the attached detection list is duplicate-free for the finding identity
"same `id` OR same `(message_id, detection_type)` pair"; hence the
violation events synthesized from any single base event reference
pairwise distinct detection ids.  (The original claim's global form is
false: a detection can attach to both a user message and its paired
agent response, e.g. via a shared `request_id`, yielding one violation
event per attachment — see the counterexample.) -/
theorem C1_theorem (cache : Cache) (s : SessionData) :
    ∀ e ∈ processSessionData cache s,
      List.Pairwise (fun a b : Detection => a.id ≠ b.id ∧
        ¬(a.message_id = b.message_id ∧ a.detection_type = b.detection_type)) e.detections := by
  intro e he
  have himp : ∀ a b : Detection, detEq a b = false →
      a.id ≠ b.id ∧ ¬(a.message_id = b.message_id ∧ a.detection_type = b.detection_type) := by
    intro a b hab
    simp only [detEq, Bool.or_eq_false_iff, Bool.and_eq_false_imp, beq_eq_false_iff_ne,
      ne_eq, beq_iff_eq] at hab
    exact ⟨hab.1, fun hc => (hab.2 hc.1) hc.2⟩
  rcases detections_shape (mem_sortByTs.mp he) with hnil | ⟨l, hl⟩
  · rw [hnil]; exact List.Pairwise.nil
  · rw [hl]
    exact (dedup_pairwise l).imp (fun hab => himp _ _ hab)

/-- Claim C2, amended.  The correlator's output is sorted by timestamp
non-decreasing, and every violation event synthesized for a base event E
appears strictly after (every occurrence of) E and strictly before every
base event whose original timestamp exceeds the violation's synthetic
timestamp `E.timestamp + 1 + detectionIndex`.  (The original "immediately
after E, before any base event with a later-or-equal timestamp" is
false: a base event with a timestamp equal to E's sorts before the
violation — see the counterexample.) -/
theorem C2_theorem (cache : Cache) (s : SessionData) :
    List.Pairwise tsLE (processSessionData cache s) ∧
    (∀ E ∈ baseEvents cache s, ∀ p ∈ E.detections.enum,
      mkViolation E p.1 p.2 ∈ processSessionData cache s ∧
      (∀ i j, (processSessionData cache s).get? i = some E →
        (processSessionData cache s).get? j = some (mkViolation E p.1 p.2) → i < j) ∧
      (∀ F ∈ baseEvents cache s, E.timestamp + 1 + (p.1 : Int) < F.timestamp →
        ∀ i j, (processSessionData cache s).get? i = some (mkViolation E p.1 p.2) →
          (processSessionData cache s).get? j = some F → i < j)) := by
  have hsorted : List.Pairwise tsLE (processSessionData cache s) := pairwise_sortByTs _
  refine ⟨hsorted, ?_⟩
  intro E hE p hp
  refine ⟨mem_sortByTs.mpr (violation_mem_withViolations hE hp), ?_, ?_⟩
  · intro i j hi hj
    by_contra hcon
    push_neg at hcon
    have hle := pairwise_le_of_get hsorted j i _ _ hcon hj hi
    rw [mkViolation_timestamp] at hle
    omega
  · intro F _ hlt i j hi hj
    by_contra hcon
    push_neg at hcon
    have hle := pairwise_le_of_get hsorted j i _ _ hcon hj hi
    rw [mkViolation_timestamp] at hle
    omega

/-- Claim C3, amended.  When the resolved response records a handoff,
the `ti`-th tool usage is timestamped `response - 50 + 10 * ti` ms:
strictly after the synthesized handoff timestamp, strictly increasing in
the tool's position, and strictly before the response timestamp exactly
when `ti < 5`.  When no handoff is recorded the tool event carries the
source tool timestamp unchanged.  (The original claim is false: without
a handoff the source tool timestamp is used and may fall after the
response — see the counterexample.) -/
theorem C3_theorem (cache : Cache) (ds : List Detection) (i : Nat) (r : AgentResponse)
    (ti : Nat) (t : ToolUsage) (hd : HandoffDetails) :
    (r.handoff_occurred = true →
       (mkToolEvent cache r ti t).timestamp = r.timestamp - 50 + (ti : Int) * 10 ∧
       (mkHandoffEvent cache r hd).timestamp < (mkToolEvent cache r ti t).timestamp ∧
       ((mkToolEvent cache r ti t).timestamp < (mkRespEvent cache ds i r).timestamp ↔ ti < 5) ∧
       (∀ (tj : Nat) (u : ToolUsage), ti < tj →
          (mkToolEvent cache r ti t).timestamp < (mkToolEvent cache r tj u).timestamp)) ∧
    (r.handoff_occurred = false → (mkToolEvent cache r ti t).timestamp = t.timestamp) := by
  constructor
  · intro hoc
    simp only [mkToolEvent, mkHandoffEvent, mkRespEvent, hoc, if_true]
    refine ⟨by omega, by omega, by constructor <;> (intro h; omega), ?_⟩
    intro tj u htj
    omega
  · intro hoc
    simp only [mkToolEvent, hoc]
    simp

/-- Claim C7 (confirmed).  A user message whose `request_id` matches
nothing in the request-id response map and whose own message id matches
nothing in the trace-id fallback map yields exactly its `user_message`
event — no assistant-side events — and the processing is total (no
exception path exists in the embedding). -/
theorem C7_theorem (cache : Cache) (ds : List Detection) (rs : List AgentResponse)
    (i : Nat) (m : ChatMessage)
    (hrole : m.role = "user")
    (h1 : respByRequestId rs m.request_id = none)
    (h2 : respByTraceId rs m.message_id = none) :
    turnEvents cache ds rs i m = [mkUserEvent ds i m] ∧
    ∀ e ∈ turnEvents cache ds rs i m, e.type = EventType.user_message := by
  have hres : resolveResponse rs m = none := by
    unfold resolveResponse
    rw [h1]
    by_cases hmid : m.message_id = ""
    · rw [if_pos hmid]
    · rw [if_neg hmid]
      exact h2
  constructor
  · unfold turnEvents
    rw [if_pos hrole, hres]
  · intro e he
    unfold turnEvents at he
    rw [if_pos hrole, hres] at he
    simp only [List.mem_singleton] at he
    subst he
    rfl

/-- Claim C10 (confirmed).  Only user-role chat messages produce events
(an assistant-role message contributes nothing), and every
`agent_response` event of the output is the synthesis of a member of the
`agentResponses` list resolved to some user turn. -/
theorem C10_theorem (cache : Cache) (s : SessionData) :
    (∀ p ∈ s.chat_history.enum, p.2.role ≠ "user" →
       turnEvents cache s.detections s.agent_responses p.1 p.2 = []) ∧
    (∀ e ∈ processSessionData cache s, e.type = EventType.agent_response →
       ∃ r ∈ s.agent_responses, ∃ p ∈ s.chat_history.enum,
         p.2.role = "user" ∧ resolveResponse s.agent_responses p.2 = some r ∧
         e = mkRespEvent cache s.detections p.1 r) := by
  constructor
  · intro p _ hrole
    unfold turnEvents
    rw [if_neg hrole]
  · intro e he htype
    rcases mem_withViolations (mem_sortByTs.mp he) with hb | ⟨b, _, q, _, rfl⟩
    · rcases mem_baseEvents hb with ⟨p, hp, ht⟩
      rcases mem_turnEvents ht with ⟨hrole, hshape⟩
      rcases hshape with rfl | ⟨r, hres, hsh⟩
      · rw [mkUserEvent_type] at htype
        simp at htype
      · rcases hsh with rfl | ⟨hd', _, _, rfl⟩ | ⟨pp, _, rfl⟩
        · exact ⟨r, resolveResponse_mem hres, p, hp, hrole, hres, rfl⟩
        · rw [mkHandoffEvent_type] at htype
          simp at htype
        · rw [mkToolEvent_type] at htype
          simp at htype
    · rw [mkViolation_type] at htype
      simp at htype

theorem mem_userTurns {s : SessionData} {p : Nat × ChatMessage}
    (hp : p ∈ s.chat_history.enum) (hrole : p.2.role = "user") : p ∈ userTurns s := by
  unfold userTurns
  exact List.mem_filter.mpr ⟨hp, by simp [hrole]⟩

theorem probeMsgIds_user {s : SessionData} {p : Nat × ChatMessage} (hp : p ∈ userTurns s) :
    p.2.message_id ∈ probeMsgIds s :=
  List.mem_flatMap.mpr ⟨p, hp, List.mem_cons_self _ _⟩

theorem probeMsgIds_resp {s : SessionData} {p : Nat × ChatMessage} {r : AgentResponse}
    (hp : p ∈ userTurns s) (hres : resolveResponse s.agent_responses p.2 = some r) :
    r.response_id ∈ probeMsgIds s := by
  refine List.mem_flatMap.mpr ⟨p, hp, ?_⟩
  rw [hres]
  simp

theorem probeReqIds_user {s : SessionData} {p : Nat × ChatMessage} {key : String}
    (hp : p ∈ userTurns s) (hk : jsTruthy p.2.request_id = some key) :
    key ∈ probeReqIds s := by
  refine List.mem_flatMap.mpr ⟨p, hp, List.mem_append_left _ ?_⟩
  simp [hk]

theorem probeReqIds_resp {s : SessionData} {p : Nat × ChatMessage} {r : AgentResponse}
    {key : String} (hp : p ∈ userTurns s)
    (hres : resolveResponse s.agent_responses p.2 = some r)
    (hk : jsTruthy r.request_id = some key) : key ∈ probeReqIds s := by
  refine List.mem_flatMap.mpr ⟨p, hp, List.mem_append_right _ ?_⟩
  rw [hres]
  simp [hk]

theorem probeIdxs_user {s : SessionData} {p : Nat × ChatMessage} (hp : p ∈ userTurns s) :
    p.1 ∈ probeIdxs s :=
  List.mem_flatMap.mpr ⟨p, hp, List.mem_cons_self _ _⟩

theorem probeIdxs_resp {s : SessionData} {p : Nat × ChatMessage} {r : AgentResponse}
    (hp : p ∈ userTurns s) (hres : resolveResponse s.agent_responses p.2 = some r) :
    p.1 + 1 ∈ probeIdxs s := by
  refine List.mem_flatMap.mpr ⟨p, hp, ?_⟩
  rw [hres]
  simp

theorem probeTraceIds_user {s : SessionData} {p : Nat × ChatMessage} (hp : p ∈ userTurns s) :
    jsOr p.2.request_id p.2.message_id ∈ probeTraceIds s :=
  List.mem_flatMap.mpr ⟨p, hp, List.mem_cons_self _ _⟩

theorem probeTraceIds_resp {s : SessionData} {p : Nat × ChatMessage} {r : AgentResponse}
    (hp : p ∈ userTurns s) (hres : resolveResponse s.agent_responses p.2 = some r) :
    r.response_id ∈ probeTraceIds s := by
  refine List.mem_flatMap.mpr ⟨p, hp, ?_⟩
  rw [hres]
  simp

theorem baseEvents_type_ne {cache : Cache} {s : SessionData} {e : Event}
    (h : e ∈ baseEvents cache s) : e.type ≠ EventType.violation := by
  rcases mem_baseEvents h with ⟨p, _, ht⟩
  rcases (mem_turnEvents ht).2 with rfl | ⟨r, _, rfl | ⟨hd, _, _, rfl⟩ | ⟨pp, _, rfl⟩⟩ <;>
    simp [mkUserEvent_type, mkRespEvent_type, mkHandoffEvent_type, mkToolEvent_type]

theorem baseEvents_detections_sub {cache : Cache} {s : SessionData} {b : Event}
    (hb : b ∈ baseEvents cache s) : ∀ x ∈ b.detections, x ∈ s.detections := by
  intro x hx
  rcases mem_baseEvents hb with ⟨p, _, ht⟩
  rcases (mem_turnEvents ht).2 with rfl | ⟨r, _, rfl | ⟨hd, _, _, rfl⟩ | ⟨pp, _, rfl⟩⟩
  · exact (mem_userDetectionsFor hx).1
  · exact (mem_responseDetectionsFor hx).1
  · simp [mkHandoffEvent] at hx
  · simp [mkToolEvent] at hx

theorem probesMissDetections (cache : Cache) (s : SessionData) (d : Detection)
    (h1 : ∀ k ∈ probeMsgIds s, jsTruthy d.message_id ≠ some k)
    (h2 : ∀ k ∈ probeReqIds s, jsTruthy d.request_id ≠ some k)
    (h3 : ∀ k ∈ probeIdxs s, d.message_index ≠ some k)
    (h4 : ∀ k ∈ probeTraceIds s, jsTruthy d.trace_id ≠ some k) :
    ∀ b ∈ baseEvents cache s, d ∉ b.detections := by
  intro b hb hd
  rcases mem_baseEvents hb with ⟨p, hp, ht⟩
  rcases mem_turnEvents ht with ⟨hrole, hshape⟩
  have hpu := mem_userTurns hp hrole
  rcases hshape with rfl | ⟨r, hres, hsh⟩
  · rcases mem_userDetectionsFor hd with ⟨_, hmatch⟩
    rcases hmatch with hk | ⟨key, hmk, hdk⟩ | hk | hk
    · exact h1 _ (probeMsgIds_user hpu) hk
    · exact h2 _ (probeReqIds_user hpu hmk) hdk
    · exact h3 _ (probeIdxs_user hpu) hk
    · exact h4 _ (probeTraceIds_user hpu) hk
  · rcases hsh with rfl | ⟨hd', _, _, rfl⟩ | ⟨pp, _, rfl⟩
    · rcases mem_responseDetectionsFor hd with ⟨_, hmatch⟩
      rcases hmatch with hk | ⟨key, hmk, hdk⟩ | hk | hk
      · exact h1 _ (probeMsgIds_resp hpu hres) hk
      · exact h2 _ (probeReqIds_resp hpu hres hmk) hdk
      · exact h3 _ (probeIdxs_resp hpu hres) hk
      · exact h4 _ (probeTraceIds_resp hpu hres) hk
    · simp [mkHandoffEvent] at hd
    · simp [mkToolEvent] at hd

/-- Claim C8 (confirmed).  A detection whose four identifiers match none
of the correlator's probe keys for the transcript is silently dropped:
it appears in no output event's detection list, and (when detection ids
are unique) no violation event references its id; the embedding is a
total function, so no error is raised. -/
theorem C8_theorem (cache : Cache) (s : SessionData) (d : Detection)
    (h1 : ∀ k ∈ probeMsgIds s, jsTruthy d.message_id ≠ some k)
    (h2 : ∀ k ∈ probeReqIds s, jsTruthy d.request_id ≠ some k)
    (h3 : ∀ k ∈ probeIdxs s, d.message_index ≠ some k)
    (h4 : ∀ k ∈ probeTraceIds s, jsTruthy d.trace_id ≠ some k)
    (h5 : ∀ d2 ∈ s.detections, d2.id = d.id → d2 = d) :
    ∀ e ∈ processSessionData cache s,
      d ∉ e.detections ∧
      (e.type = EventType.violation →
        ∀ det, e.details = some det → det.violation_id ≠ some d.id) := by
  have haux := probesMissDetections cache s d h1 h2 h3 h4
  intro e he
  rcases mem_withViolations (mem_sortByTs.mp he) with hb | ⟨b, hbase, q, hq, rfl⟩
  · refine ⟨haux e hb, ?_⟩
    intro hv _ _
    exact absurd hv (baseEvents_type_ne hb)
  · constructor
    · simp [mkViolation]
    · intro _ det hdet hvid
      have hdet2 : det.violation_id = some q.2.id := by
        simp [mkViolation] at hdet
        rw [← hdet]
      rw [hdet2] at hvid
      have hid : q.2.id = d.id := by
        simpa using hvid
      have hq2 : q.2 ∈ b.detections := List.snd_mem_of_mem_enum hq
      have hq2s : q.2 ∈ s.detections := baseEvents_detections_sub hbase _ hq2
      have : q.2 = d := h5 _ hq2s hid
      rw [this] at hq2
      exact haux b hbase hq2

theorem resolveName_congr {c1 c2 : Cache} {k : String} (h : c1 k = c2 k) :
    resolveName c1 k = resolveName c2 k := by
  unfold resolveName
  rw [h]

theorem agentKey_mem_nameKeys {s : SessionData} {r : AgentResponse}
    (hr : r ∈ s.agent_responses) : agentKey r ∈ nameKeysOf s :=
  List.mem_flatMap.mpr ⟨r, hr, List.mem_cons_self _ _⟩

theorem handoff_from_mem_nameKeys {s : SessionData} {r : AgentResponse} {hd : HandoffDetails}
    (hr : r ∈ s.agent_responses) (hhd : r.handoff_details = some hd) :
    hd.from_agent ∈ nameKeysOf s := by
  refine List.mem_flatMap.mpr ⟨r, hr, List.mem_cons_of_mem _ ?_⟩
  rw [hhd]
  simp

theorem handoff_to_mem_nameKeys {s : SessionData} {r : AgentResponse} {hd : HandoffDetails}
    (hr : r ∈ s.agent_responses) (hhd : r.handoff_details = some hd) :
    hd.to_agent ∈ nameKeysOf s := by
  refine List.mem_flatMap.mpr ⟨r, hr, List.mem_cons_of_mem _ ?_⟩
  rw [hhd]
  simp

/-- Claim C4, amended.  The correlator is a deterministic function of
the transcript together with the ambient agent-name cache state: two
runs whose cache lookups agree on every agent identifier referenced by
the transcript's responses produce structurally equal output.  (The
original claim's independence from the process-wide name cache is
false — see the counterexample, where two cache states yield different
outputs on the same transcript.) -/
theorem C4_theorem (c1 c2 : Cache) (s : SessionData)
    (h : ∀ k ∈ nameKeysOf s, c1 k = c2 k) :
    processSessionData c1 s = processSessionData c2 s := by
  have hbase : baseEvents c1 s = baseEvents c2 s := by
    unfold baseEvents
    apply flatMap_congr
    intro p _
    unfold turnEvents
    by_cases hrole : p.2.role = "user"
    · rw [if_pos hrole, if_pos hrole]
      cases hres : resolveResponse s.agent_responses p.2 with
      | none => rfl
      | some r =>
        have hr : r ∈ s.agent_responses := resolveResponse_mem hres
        have hak : resolveName c1 (agentKey r) = resolveName c2 (agentKey r) :=
          resolveName_congr (h _ (agentKey_mem_nameKeys hr))
        have hHo : (match r.handoff_occurred, r.handoff_details with
            | true, some hd => [mkHandoffEvent c1 r hd]
            | _, _ => []) =
            (match r.handoff_occurred, r.handoff_details with
            | true, some hd => [mkHandoffEvent c2 r hd]
            | _, _ => []) := by
          cases hoc : r.handoff_occurred with
          | false => rfl
          | true =>
            cases hhd : r.handoff_details with
            | none => rfl
            | some hd =>
              have hf := resolveName_congr (h _ (handoff_from_mem_nameKeys hr hhd))
              have ht := resolveName_congr (h _ (handoff_to_mem_nameKeys hr hhd))
              simp [mkHandoffEvent, hf, ht]
        have hTools : r.tools_used.enum.map (fun q => mkToolEvent c1 r q.1 q.2) =
            r.tools_used.enum.map (fun q => mkToolEvent c2 r q.1 q.2) := by
          apply List.map_congr_left
          intro q _
          simp [mkToolEvent, hak]
        have hResp : mkRespEvent c1 s.detections p.1 r = mkRespEvent c2 s.detections p.1 r := by
          simp [mkRespEvent, hak]
        dsimp only
        rw [hHo, hTools, hResp]
    · rw [if_neg hrole, if_neg hrole]
  unfold processSessionData
  rw [hbase]

theorem amapHas_iff {κ ν : Type} [DecidableEq κ] {m : List (κ × ν)} {k : κ} :
    amapHas m k = true ↔ ∃ p ∈ m, p.1 = k := by
  unfold amapHas
  simp [List.any_eq_true]

theorem amapGet_mem {κ ν : Type} [DecidableEq κ] {m : List (κ × ν)} {k : κ} {v : ν}
    (h : amapGet m k = some v) : (k, v) ∈ m := by
  unfold amapGet at h
  cases hf : m.find? (fun p => decide (p.1 = k)) with
  | none => rw [hf] at h; cases h
  | some p =>
    rw [hf] at h
    simp only [Option.map_some', Option.some.injEq] at h
    have hm := List.mem_of_find?_eq_some hf
    have hk := List.find?_some hf
    simp only [decide_eq_true_eq] at hk
    have : p = (k, v) := Prod.ext hk h
    rw [this] at hm
    exact hm

theorem amapGet_isSome_of_has {κ ν : Type} [DecidableEq κ] {m : List (κ × ν)} {k : κ}
    (h : amapHas m k = true) : ∃ v, amapGet m k = some v := by
  rcases List.any_eq_true.mp h with ⟨p, hp, hpk⟩
  have hs : (m.find? (fun p => decide (p.1 = k))).isSome :=
    List.find?_isSome.mpr ⟨p, hp, hpk⟩
  rcases Option.isSome_iff_exists.mp hs with ⟨q, hq⟩
  exact ⟨q.2, by unfold amapGet; rw [hq]; rfl⟩

theorem mem_amapSet {κ ν : Type} [DecidableEq κ] {m : List (κ × ν)} {k : κ} {v : ν}
    {p : κ × ν} (h : p ∈ amapSet m k v) : p = (k, v) ∨ (p ∈ m ∧ p.1 ≠ k) := by
  unfold amapSet at h
  by_cases hh : amapHas m k
  · rw [if_pos hh] at h
    rcases List.mem_map.mp h with ⟨q, hq, hqe⟩
    by_cases hqk : q.1 = k
    · rw [if_pos hqk] at hqe
      exact Or.inl hqe.symm
    · rw [if_neg hqk] at hqe
      subst hqe
      exact Or.inr ⟨hq, hqk⟩
  · rw [if_neg hh] at h
    rcases List.mem_append.mp h with hm | hk
    · refine Or.inr ⟨hm, ?_⟩
      intro hpk
      exact hh (amapHas_iff.mpr ⟨p, hm, hpk⟩)
    · left
      simpa using hk

theorem amapHas_set_self {κ ν : Type} [DecidableEq κ] {m : List (κ × ν)} {k : κ} {v : ν} :
    amapHas (amapSet m k v) k = true := by
  unfold amapSet
  by_cases hh : amapHas m k
  · rw [if_pos hh]
    rcases amapHas_iff.mp hh with ⟨p, hp, hpk⟩
    exact amapHas_iff.mpr ⟨(k, v), List.mem_map.mpr ⟨p, hp, by rw [if_pos hpk]⟩, rfl⟩
  · rw [if_neg hh]
    exact amapHas_iff.mpr ⟨(k, v), List.mem_append_right _ (by simp), rfl⟩

theorem amapHas_set_mono {κ ν : Type} [DecidableEq κ] {m : List (κ × ν)} {k k' : κ} {v : ν}
    (h : amapHas m k' = true) : amapHas (amapSet m k v) k' = true := by
  rcases amapHas_iff.mp h with ⟨p, hp, hpk⟩
  unfold amapSet
  by_cases hh : amapHas m k
  · rw [if_pos hh]
    by_cases hpk2 : p.1 = k
    · refine amapHas_iff.mpr ⟨(k, v), List.mem_map.mpr ⟨p, hp, by rw [if_pos hpk2]⟩, ?_⟩
      rw [← hpk2, hpk]
    · exact amapHas_iff.mpr ⟨p, List.mem_map.mpr ⟨p, hp, by rw [if_neg hpk2]⟩, hpk⟩
  · rw [if_neg hh]
    exact amapHas_iff.mpr ⟨p, List.mem_append_left _ hp, hpk⟩

theorem amapHas_set_absent {κ ν : Type} [DecidableEq κ] {m : List (κ × ν)} {k k' : κ} {v : ν}
    (hm : amapHas m k' = false) (hne : k ≠ k') : amapHas (amapSet m k v) k' = false := by
  by_contra hcon
  rcases amapHas_iff.mp (Bool.of_not_eq_false hcon) with ⟨p, hp, hpk⟩
  rcases mem_amapSet hp with rfl | ⟨hpm, _⟩
  · exact hne hpk
  · rw [amapHas_iff.mpr ⟨p, hpm, hpk⟩] at hm
    cases hm

theorem amapSet_keys_nodup {κ ν : Type} [DecidableEq κ] {m : List (κ × ν)} {k : κ} {v : ν}
    (h : List.Nodup (m.map Prod.fst)) : List.Nodup ((amapSet m k v).map Prod.fst) := by
  unfold amapSet
  by_cases hh : amapHas m k
  · rw [if_pos hh]
    have : (m.map (fun p => if p.1 = k then (k, v) else p)).map Prod.fst = m.map Prod.fst := by
      rw [List.map_map]
      apply List.map_congr_left
      intro p _
      by_cases hpk : p.1 = k
      · simp [hpk]
      · simp [hpk]
    rw [this]
    exact h
  · rw [if_neg hh]
    rw [List.map_append]
    simp only [List.map_cons, List.map_nil]
    apply List.nodup_append.mpr
    refine ⟨h, List.nodup_singleton _, ?_⟩
    intro a ha
    simp only [List.mem_singleton]
    intro hak
    subst hak
    rcases List.mem_map.mp ha with ⟨p, hp, hpk⟩
    exact (by simp [amapHas_iff.mpr ⟨p, hp, hpk⟩] at hh)

theorem keys_nodup_inj {κ ν : Type} [DecidableEq κ] {m : List (κ × ν)}
    (hnd : List.Nodup (m.map Prod.fst)) :
    ∀ p ∈ m, ∀ q ∈ m, p.1 = q.1 → p = q := by
  induction m with
  | nil => intro p hp; simp at hp
  | cons x rest ih =>
    intro p hp q hq hpq
    simp only [List.map_cons, List.nodup_cons] at hnd
    rcases List.mem_cons.mp hp with rfl | hp' <;> rcases List.mem_cons.mp hq with rfl | hq'
    · rfl
    · exact absurd (List.mem_map.mpr ⟨q, hq', hpq.symm⟩) hnd.1
    · exact absurd (List.mem_map.mpr ⟨p, hp', hpq⟩) hnd.1
    · exact ih hnd.2 p hp' q hq' hpq

theorem countP_key_eq_one {κ ν : Type} [DecidableEq κ] {m : List (κ × ν)} {k : κ}
    (hnd : List.Nodup (m.map Prod.fst)) (h : amapHas m k = true) :
    m.countP (fun p => decide (p.1 = k)) = 1 := by
  induction m with
  | nil => simp [amapHas] at h
  | cons x rest ih =>
    simp only [List.map_cons, List.nodup_cons] at hnd
    by_cases hxk : x.1 = k
    · rw [List.countP_cons_of_pos _ _ (by simp [hxk])]
      have hz : rest.countP (fun p => decide (p.1 = k)) = 0 := by
        apply List.countP_eq_zero.mpr
        intro p hp
        simp only [decide_eq_true_eq]
        intro hpk
        exact hnd.1 (List.mem_map.mpr ⟨p, hp, by rw [hpk, ← hxk]⟩)
      omega
    · rw [List.countP_cons_of_neg _ _ (by simp [hxk])]
      apply ih hnd.2
      rcases amapHas_iff.mp h with ⟨p, hp, hpk⟩
      rcases List.mem_cons.mp hp with rfl | hp'
      · exact absurd hpk hxk
      · exact amapHas_iff.mpr ⟨p, hp', hpk⟩

theorem toolCursorB_iff {evs : List Event} {ci : Nat} :
    ((match evs.get? ci with
      | some ce => ce.type == EventType.tool_call
      | none => false) = true) ↔ cursorIsToolCall evs ci := by
  cases h : evs.get? ci with
  | none =>
    have h' : evs[ci]? = none := by simpa [List.get?_eq_getElem?] using h
    simp [cursorIsToolCall, List.get?_eq_getElem?, h']
  | some ce =>
    have h' : evs[ci]? = some ce := by simpa [List.get?_eq_getElem?] using h
    simp [cursorIsToolCall, List.get?_eq_getElem?, h']

/-- Claim C9 (confirmed).  For any connection map with distinct keys,
any event list and any cursor, an edge produced by the edge constructor
is active exactly when its connection records an occurrence at the
cursor index, or the cursor event is a tool call and the edge's key lies
on the resolved user-to-agent-to-tool path; all other edges are
inactive. -/
theorem C9_theorem (conns : List (String × Connection)) (evs : List Event) (ci : Nat)
    (hnd : List.Nodup (conns.map Prod.fst)) :
    ∀ ed ∈ initialEdges conns evs ci,
      (ed.active = true ↔
        (∃ p ∈ conns, p.1 = ed.key ∧ connHasIndex p.2 ci) ∨
        (cursorIsToolCall evs ci ∧ ed.key ∈ toolCallPathKeys conns evs ci)) := by
  intro ed hed
  unfold initialEdges at hed
  rcases List.mem_map.mp hed with ⟨p, hp, hpe⟩
  subst hpe
  dsimp only
  constructor
  · intro hact
    rcases Bool.or_eq_true_iff.mp hact with hfind | hpath
    · rcases List.find?_isSome.mp hfind with ⟨o, ho, hoi⟩
      exact Or.inl ⟨p, hp, rfl, o, ho, by simpa using hoi⟩
    · rcases Bool.and_eq_true_iff.mp hpath with ⟨hcur, hcont⟩
      refine Or.inr ⟨toolCursorB_iff.mp hcur, ?_⟩
      simpa using hcont
  · intro h
    rcases h with ⟨q, hq, hqk, o, ho, hoi⟩ | ⟨hcur, hmem⟩
    · have hqp : q = p := keys_nodup_inj hnd q hq p hp hqk
      subst hqp
      apply Bool.or_eq_true_iff.mpr
      exact Or.inl (List.find?_isSome.mpr ⟨o, ho, by simp [hoi]⟩)
    · apply Bool.or_eq_true_iff.mpr
      refine Or.inr (Bool.and_eq_true_iff.mpr ⟨toolCursorB_iff.mpr hcur, by simpa using hmem⟩)

theorem addAgent_has_mono {ua : List (String × String)} {key dn x : String}
    (h : amapHas ua x = true) : amapHas (addAgent ua key dn) x = true := by
  unfold addAgent
  by_cases hh : amapHas ua key
  · rw [if_pos hh]; exact h
  · rw [if_neg hh]
    rcases amapHas_iff.mp h with ⟨p, hp, hpk⟩
    exact amapHas_iff.mpr ⟨p, List.mem_append_left _ hp, hpk⟩

theorem addAgent_has_self {ua : List (String × String)} {key dn : String} :
    amapHas (addAgent ua key dn) key = true := by
  unfold addAgent
  by_cases hh : amapHas ua key
  · rw [if_pos hh]; exact hh
  · rw [if_neg hh]
    exact amapHas_iff.mpr ⟨(key, dn), List.mem_append_right _ (by simp), rfl⟩

theorem addAgent_absentKeeps {ua : List (String × String)} {key dn n : String}
    (h : amapHas ua n = false) (hne : key ≠ n) :
    amapHas (addAgent ua key dn) n = false := by
  unfold addAgent
  by_cases hh : amapHas ua key
  · rw [if_pos hh]; exact h
  · rw [if_neg hh]
    by_contra hcon
    rcases amapHas_iff.mp (Bool.of_not_eq_false hcon) with ⟨p, hp, hpn⟩
    rcases List.mem_append.mp hp with hp1 | hp2
    · rw [amapHas_iff.mpr ⟨p, hp1, hpn⟩] at h
      cases h
    · simp only [List.mem_singleton] at hp2
      subst hp2
      exact hne hpn

theorem addAgent_nodup {ua : List (String × String)} {key dn : String}
    (h : List.Nodup (ua.map Prod.fst)) :
    List.Nodup ((addAgent ua key dn).map Prod.fst) := by
  unfold addAgent
  by_cases hh : amapHas ua key
  · rw [if_pos hh]; exact h
  · rw [if_neg hh]
    rw [List.map_append]
    simp only [List.map_cons, List.map_nil]
    apply List.nodup_append.mpr
    refine ⟨h, List.nodup_singleton _, ?_⟩
    intro a ha
    simp only [List.mem_singleton]
    intro hak
    subst hak
    rcases List.mem_map.mp ha with ⟨p, hp, hpk⟩
    exact (by simp [amapHas_iff.mpr ⟨p, hp, hpk⟩] at hh)

theorem firstPass_inv (nv : List Event) (k n : String)
    (hcons : ∀ e ∈ nv, jsTruthy e.agent_id = some k → e.agent = n)
    (howner : ∀ e ∈ nv, e.agent = n → ∀ k', jsTruthy e.agent_id = some k' → k' = k)
    (hnotid : ∀ e ∈ nv, jsTruthy e.agent_id ≠ some n) :
    (∀ p ∈ (buildIdNameMaps nv).nameToId, p.1 = n → p.2 = k) ∧
    (∀ p ∈ (buildIdNameMaps nv).nameToId, p.2 ≠ n) ∧
    (amapHas (buildIdNameMaps nv).idToName k = true →
      amapHas (buildIdNameMaps nv).nameToId n = true) := by
  unfold buildIdNameMaps
  apply foldl_preserve (fun maps : IdNameMaps =>
    (∀ p ∈ maps.nameToId, p.1 = n → p.2 = k) ∧
    (∀ p ∈ maps.nameToId, p.2 ≠ n) ∧
    (amapHas maps.idToName k = true → amapHas maps.nameToId n = true))
  · refine ⟨by simp, by simp, ?_⟩
    intro h
    simp [amapHas] at h
  · intro maps e he hP
    unfold firstPassStep
    by_cases hUser : e.agent = "User"
    · rw [if_pos hUser]; exact hP
    · rw [if_neg hUser]
      cases hai : jsTruthy e.agent_id with
      | none => exact hP
      | some aid =>
        dsimp only
        by_cases hhas : amapHas maps.idToName aid
        · rw [if_pos hhas]; exact hP
        · rw [if_neg hhas]
          refine ⟨?_, ?_, ?_⟩
          · intro p hp hpn
            rcases mem_amapSet hp with rfl | ⟨hpm, _⟩
            · exact howner e he hpn aid hai
            · exact hP.1 p hpm hpn
          · intro p hp
            rcases mem_amapSet hp with rfl | ⟨hpm, _⟩
            · intro hcon
              exact hnotid e he (by rw [hai]; exact congrArg some hcon)
            · exact hP.2.1 p hpm
          · intro hh
            rcases amapHas_iff.mp hh with ⟨q, hq, hqk⟩
            rcases mem_amapSet hq with rfl | ⟨hqm, _⟩
            · have hagn : e.agent = n := hcons e he (by rw [hai]; exact congrArg some hqk)
              rw [hagn]
              exact amapHas_set_self
            · exact amapHas_set_mono (hP.2.2 (amapHas_iff.mpr ⟨q, hqm, hqk⟩))

theorem firstPassStep_idhas_mono {maps : IdNameMaps} {e : Event} {x : String}
    (h : amapHas maps.idToName x = true) :
    amapHas (firstPassStep maps e).idToName x = true := by
  unfold firstPassStep
  by_cases hUser : e.agent = "User"
  · rw [if_pos hUser]; exact h
  · rw [if_neg hUser]
    cases hai : jsTruthy e.agent_id with
    | none => exact h
    | some aid =>
      dsimp only
      by_cases hhas : amapHas maps.idToName aid
      · rw [if_pos hhas]; exact h
      · rw [if_neg hhas]
        exact amapHas_set_mono h

theorem firstPassStep_adds_k {maps : IdNameMaps} {e : Event} {k n : String} (hnU : n ≠ "User")
    (hai : jsTruthy e.agent_id = some k) (hag : e.agent = n) :
    amapHas (firstPassStep maps e).idToName k = true := by
  unfold firstPassStep
  rw [if_neg (by rw [hag]; exact hnU), hai]
  dsimp only
  by_cases hhas : amapHas maps.idToName k
  · rw [if_pos hhas]; exact hhas
  · rw [if_neg hhas]
    exact amapHas_set_self

theorem buildIdNameMaps_has_k (nv : List Event) (k n : String) (hnU : n ≠ "User")
    (hw : ∃ e ∈ nv, jsTruthy e.agent_id = some k ∧ e.agent = n) :
    amapHas (buildIdNameMaps nv).idToName k = true := by
  rcases hw with ⟨e, he, hai, hag⟩
  rcases List.append_of_mem he with ⟨l1, l2, rfl⟩
  unfold buildIdNameMaps
  rw [List.foldl_append, List.foldl_cons]
  exact foldl_preserve (fun maps : IdNameMaps => amapHas maps.idToName k = true) _ l2 _
    (firstPassStep_adds_k hnU hai hag)
    (fun b a _ hb => firstPassStep_idhas_mono hb)

theorem nameToId_get (nv : List Event) (k n : String) (hnU : n ≠ "User")
    (hw : ∃ e ∈ nv, jsTruthy e.agent_id = some k ∧ e.agent = n)
    (hcons : ∀ e ∈ nv, jsTruthy e.agent_id = some k → e.agent = n)
    (howner : ∀ e ∈ nv, e.agent = n → ∀ k', jsTruthy e.agent_id = some k' → k' = k)
    (hnotid : ∀ e ∈ nv, jsTruthy e.agent_id ≠ some n) :
    amapGet (buildIdNameMaps nv).nameToId n = some k := by
  have hP := firstPass_inv nv k n hcons howner hnotid
  have hhk := buildIdNameMaps_has_k nv k n hnU hw
  rcases amapGet_isSome_of_has (hP.2.2 hhk) with ⟨v, hv⟩
  have hmem := amapGet_mem hv
  have hvk : v = k := hP.1 (n, v) hmem rfl
  rw [hvk] at hv
  exact hv

theorem secondPassStep_has_mono {nameToId ua : List (String × String)} {e : Event} {x : String}
    (h : amapHas ua x = true) : amapHas (secondPassStep nameToId ua e) x = true := by
  unfold secondPassStep
  dsimp only
  have hX : amapHas
      (if e.agent = "User" then ua else addAgent ua (resolveAgentKey nameToId e) e.agent)
      x = true := by
    split
    · exact h
    · exact addAgent_has_mono h
  split
  · cases hdet : e.details with
    | none => dsimp only; exact hX
    | some det =>
      dsimp only
      cases hf : jsTruthy det.from_agent_id <;> cases ht2 : jsTruthy det.to_agent_id <;>
        dsimp only
      · exact hX
      · exact addAgent_has_mono hX
      · exact addAgent_has_mono hX
      · exact addAgent_has_mono (addAgent_has_mono hX)
  · exact hX

theorem secondPassStep_adds_k {nameToId ua : List (String × String)} {e : Event} {k n : String}
    (hnU : n ≠ "User") (hai : jsTruthy e.agent_id = some k) (hag : e.agent = n) :
    amapHas (secondPassStep nameToId ua e) k = true := by
  unfold secondPassStep
  dsimp only
  have hkeyk : resolveAgentKey nameToId e = k := by
    unfold resolveAgentKey
    rw [hai]
  have hif : (if e.agent = "User" then ua
      else addAgent ua (resolveAgentKey nameToId e) e.agent) = addAgent ua k e.agent := by
    rw [if_neg (by rw [hag]; exact hnU), hkeyk]
  rw [hif]
  have h1 : amapHas (addAgent ua k e.agent) k = true := addAgent_has_self
  split
  · cases hdet : e.details with
    | none => dsimp only; exact h1
    | some det =>
      dsimp only
      cases hf : jsTruthy det.from_agent_id <;> cases ht2 : jsTruthy det.to_agent_id <;>
        dsimp only
      · exact h1
      · exact addAgent_has_mono h1
      · exact addAgent_has_mono h1
      · exact addAgent_has_mono (addAgent_has_mono h1)
  · exact h1

theorem secondPass_has_k (nameToId : List (String × String)) (nv : List Event) (k n : String)
    (hnU : n ≠ "User")
    (hw : ∃ e ∈ nv, jsTruthy e.agent_id = some k ∧ e.agent = n) :
    amapHas (collectUniqueAgents nameToId nv) k = true := by
  rcases hw with ⟨e, he, hai, hag⟩
  rcases List.append_of_mem he with ⟨l1, l2, rfl⟩
  unfold collectUniqueAgents
  rw [List.foldl_append, List.foldl_cons]
  exact foldl_preserve (fun ua => amapHas ua k = true) _ l2 _
    (secondPassStep_adds_k hnU hai hag)
    (fun b a _ hb => secondPassStep_has_mono hb)

theorem secondPass_inv (nameToId : List (String × String)) (nv : List Event) (k n : String)
    (hget : amapGet nameToId n = some k)
    (hvals : ∀ p ∈ nameToId, p.2 ≠ n)
    (hnotid : ∀ e ∈ nv, jsTruthy e.agent_id ≠ some n)
    (hhd : ∀ e ∈ nv, e.type = EventType.handoff → ∀ det, e.details = some det →
       jsTruthy det.from_agent_id ≠ some n ∧ jsTruthy det.to_agent_id ≠ some n) :
    amapHas (collectUniqueAgents nameToId nv) n = false ∧
    List.Nodup ((collectUniqueAgents nameToId nv).map Prod.fst) := by
  unfold collectUniqueAgents
  apply foldl_preserve
    (fun ua : List (String × String) =>
      amapHas ua n = false ∧ List.Nodup (ua.map Prod.fst)) _ nv _
  · exact ⟨by simp [amapHas], by simp⟩
  · intro ua e he hQ
    have hkey1 : resolveAgentKey nameToId e ≠ n := by
      unfold resolveAgentKey
      cases hai : jsTruthy e.agent_id with
      | some aid =>
        dsimp only
        intro hcon
        exact hnotid e he (by rw [hai, hcon])
      | none =>
        dsimp only
        cases hm : amapGet nameToId e.agent with
        | some mid =>
          dsimp only
          intro hcon
          exact hvals _ (amapGet_mem hm) hcon
        | none =>
          dsimp only
          intro hcon
          rw [hcon, hget] at hm
          cases hm
    unfold secondPassStep
    dsimp only
    have hQ1 : amapHas (if e.agent = "User" then ua else
        addAgent ua (resolveAgentKey nameToId e) e.agent) n = false ∧
        List.Nodup ((if e.agent = "User" then ua else
        addAgent ua (resolveAgentKey nameToId e) e.agent).map Prod.fst) := by
      split
      · exact hQ
      · exact ⟨addAgent_absentKeeps hQ.1 hkey1, addAgent_nodup hQ.2⟩
    by_cases htype : e.type = EventType.handoff
    · rw [if_pos htype]
      cases hdet : e.details with
      | none => dsimp only; exact hQ1
      | some det =>
        dsimp only
        have hfr := (hhd e he htype det hdet).1
        have hto := (hhd e he htype det hdet).2
        cases hf : jsTruthy det.from_agent_id with
        | none =>
          cases ht2 : jsTruthy det.to_agent_id with
          | none => dsimp only; exact hQ1
          | some tid =>
            dsimp only
            refine ⟨addAgent_absentKeeps hQ1.1 ?_, addAgent_nodup hQ1.2⟩
            intro hcon
            exact hto (by rw [ht2, hcon])
        | some fid =>
          cases ht2 : jsTruthy det.to_agent_id with
          | none =>
            dsimp only
            refine ⟨addAgent_absentKeeps hQ1.1 ?_, addAgent_nodup hQ1.2⟩
            intro hcon
            exact hfr (by rw [hf, hcon])
          | some tid =>
            dsimp only
            refine ⟨addAgent_absentKeeps (addAgent_absentKeeps hQ1.1 ?_) ?_,
              addAgent_nodup (addAgent_nodup hQ1.2)⟩
            · intro hcon
              exact hfr (by rw [hf, hcon])
            · intro hcon
              exact hto (by rw [ht2, hcon])
    · rw [if_neg htype]
      exact hQ1

/-- Claim C5, amended.  For any event list in which some agent is
witnessed by an event carrying both a (truthy) top-level `agent_id` `k`
and display name `n`, with consistent naming (every event with id `k` is
named `n`, no other id claims name `n`, and `n` itself is never used as
an id, neither top-level nor in handoff details), the participant map of
the Flow Reconstructor contains the canonical entry `k` and no entry
keyed by the bare display name `n`: exactly one entry for that agent.
(The original claim is false for an agent referenced by id only inside
handoff details whose display name has no top-level mapping: the map
then holds two entries for the same agent — see the counterexample.) -/
theorem C5_theorem (evs : List Event) (k n : String)
    (hnU : n ≠ "User")
    (hw : ∃ e ∈ nonViolation evs, jsTruthy e.agent_id = some k ∧ e.agent = n)
    (hcons : ∀ e ∈ nonViolation evs, jsTruthy e.agent_id = some k → e.agent = n)
    (howner : ∀ e ∈ nonViolation evs, e.agent = n →
       ∀ k', jsTruthy e.agent_id = some k' → k' = k)
    (hnotid : ∀ e ∈ nonViolation evs, jsTruthy e.agent_id ≠ some n)
    (hhd : ∀ e ∈ nonViolation evs, e.type = EventType.handoff →
       ∀ det, e.details = some det →
         jsTruthy det.from_agent_id ≠ some n ∧ jsTruthy det.to_agent_id ≠ some n) :
    amapHas (flowAgents evs) k = true ∧ amapHas (flowAgents evs) n = false ∧
    (flowAgents evs).countP (fun p => p.1 == k || p.1 == n) = 1 := by
  have hget := nameToId_get (nonViolation evs) k n hnU hw hcons howner hnotid
  have hvals := (firstPass_inv (nonViolation evs) k n hcons howner hnotid).2.1
  have hQ := secondPass_inv (buildIdNameMaps (nonViolation evs)).nameToId (nonViolation evs)
    k n hget hvals hnotid hhd
  have hK := secondPass_has_k (buildIdNameMaps (nonViolation evs)).nameToId (nonViolation evs)
    k n hnU hw
  have hfa : flowAgents evs =
      (collectUniqueAgents (buildIdNameMaps (nonViolation evs)).nameToId
        (nonViolation evs)).foldl (fun m p => amapSet m p.1 p.2) [("User", "User")] := rfl
  rw [hfa]
  have hnkeys : ∀ p ∈ collectUniqueAgents (buildIdNameMaps (nonViolation evs)).nameToId
      (nonViolation evs), p.1 ≠ n := by
    intro p hp hcon
    have hmem := amapHas_iff.mpr ⟨p, hp, hcon⟩
    rw [hQ.1] at hmem
    cases hmem
  have hfinal : amapHas ((collectUniqueAgents (buildIdNameMaps (nonViolation evs)).nameToId
      (nonViolation evs)).foldl (fun m p => amapSet m p.1 p.2) [("User", "User")]) n = false ∧
      List.Nodup (((collectUniqueAgents (buildIdNameMaps (nonViolation evs)).nameToId
      (nonViolation evs)).foldl (fun m p => amapSet m p.1 p.2)
        [("User", "User")]).map Prod.fst) := by
    apply foldl_preserve (fun m : List (String × String) =>
      amapHas m n = false ∧ List.Nodup (m.map Prod.fst)) _ _ _
    · constructor
      · simp only [amapHas, List.any_cons, List.any_nil, Bool.or_false, decide_eq_true_eq]
        exact decide_eq_false (fun hcon => hnU hcon.symm)
      · simp
    · intro m p hp hm
      exact ⟨amapHas_set_absent hm.1 (hnkeys p hp), amapSet_keys_nodup hm.2⟩
  have hfk : amapHas ((collectUniqueAgents (buildIdNameMaps (nonViolation evs)).nameToId
      (nonViolation evs)).foldl (fun m p => amapSet m p.1 p.2) [("User", "User")]) k = true := by
    rcases amapHas_iff.mp hK with ⟨p, hp, hpk⟩
    rcases List.append_of_mem hp with ⟨l1, l2, hl⟩
    rw [hl, List.foldl_append, List.foldl_cons]
    refine foldl_preserve (fun m : List (String × String) => amapHas m k = true) _ l2 _ ?_
      (fun b a _ hb => amapHas_set_mono hb)
    rw [hpk]
    exact amapHas_set_self
  refine ⟨hfk, hfinal.1, ?_⟩
  have hcongr : ((collectUniqueAgents (buildIdNameMaps (nonViolation evs)).nameToId
      (nonViolation evs)).foldl (fun m p => amapSet m p.1 p.2)
        [("User", "User")]).countP (fun p => p.1 == k || p.1 == n) =
      ((collectUniqueAgents (buildIdNameMaps (nonViolation evs)).nameToId
      (nonViolation evs)).foldl (fun m p => amapSet m p.1 p.2)
        [("User", "User")]).countP (fun p => decide (p.1 = k)) := by
    apply List.countP_congr
    intro p hp
    have hpn : p.1 ≠ n := by
      intro hcon
      have hmem := amapHas_iff.mpr ⟨p, hp, hcon⟩
      rw [hfinal.1] at hmem
      cases hmem
    simp [hpn]
  rw [hcongr]
  exact countP_key_eq_one hfinal.2 hfk

theorem dash_split_chars :
    ∀ (a c b d : List Char), '-' ∉ a → '-' ∉ c →
      a ++ '-' :: b = c ++ '-' :: d → a = c ∧ b = d := by
  intro a
  induction a with
  | nil =>
    intro c b d _ hc h
    cases c with
    | nil =>
      simp only [List.nil_append, List.cons.injEq] at h
      exact ⟨rfl, h.2⟩
    | cons x xs =>
      simp only [List.nil_append, List.cons_append, List.cons.injEq] at h
      exact absurd (h.1 ▸ List.mem_cons_self x xs) hc
  | cons y ys ih =>
    intro c b d ha hc h
    cases c with
    | nil =>
      simp only [List.cons_append, List.nil_append, List.cons.injEq] at h
      exact absurd (h.1 ▸ List.mem_cons_self y ys) ha
    | cons x xs =>
      simp only [List.cons_append, List.cons.injEq] at h
      have hih := ih xs b d (fun hm => ha (List.mem_cons_of_mem _ hm))
        (fun hm => hc (List.mem_cons_of_mem _ hm)) h.2
      exact ⟨by rw [h.1, hih.1], hih.2⟩

theorem dash_split_str {a b c d : String} (ha : noDashStr a) (hc : noDashStr c)
    (h : a ++ "-" ++ b = c ++ "-" ++ d) : a = c ∧ b = d := by
  have hdata : a.data ++ '-' :: b.data = c.data ++ '-' :: d.data := by
    have h2 := congrArg String.data h
    simpa [String.data_append] using h2
  have hsplit := dash_split_chars a.data c.data b.data d.data ha hc hdata
  exact ⟨congrArg String.mk hsplit.1, congrArg String.mk hsplit.2⟩

theorem mafSides_user (evs : List Event) : (some "User" : JStr) ∈ mafSides evs :=
  List.mem_cons_self _ _

theorem mafSides_agent {evs : List Event} {e : Event} (he : e ∈ nonViolation evs) :
    (some e.agent : JStr) ∈ mafSides evs :=
  List.mem_cons_of_mem _ (List.mem_flatMap.mpr ⟨e, he, List.mem_cons_self _ _⟩)

theorem mafSides_handoff_from {evs : List Event} {e : Event} {det : EventDetails}
    (he : e ∈ nonViolation evs) (ht : e.type = EventType.handoff)
    (hdet : e.details = some det) : det.from_agent ∈ mafSides evs := by
  refine List.mem_cons_of_mem _ (List.mem_flatMap.mpr ⟨e, he, List.mem_cons_of_mem _ ?_⟩)
  rw [if_pos ht, hdet]
  simp

theorem mafSides_handoff_to {evs : List Event} {e : Event} {det : EventDetails}
    (he : e ∈ nonViolation evs) (ht : e.type = EventType.handoff)
    (hdet : e.details = some det) : det.to_agent ∈ mafSides evs := by
  refine List.mem_cons_of_mem _ (List.mem_flatMap.mpr ⟨e, he, List.mem_cons_of_mem _ ?_⟩)
  rw [if_pos ht, hdet]
  simp

theorem mafToolNames_intro {evs : List Event} {e : Event} {tn : String}
    (he : e ∈ nonViolation evs) (ht : e.type = EventType.tool_call)
    (htn : jsTruthy (e.details.bind (fun d => d.tool_name)) = some tn) :
    tn ∈ mafToolNames evs := by
  refine List.mem_flatMap.mpr ⟨e, he, ?_⟩
  rw [if_pos ht, htn]
  simp

theorem mafPhase1Step_hmap {st : MAFPhase1} {e : Event} {P : JStr × JStr → Prop}
    (hP : ∀ p ∈ st.handoffMap, P p)
    (hnew : ∀ det, e.type = EventType.handoff → e.details = some det →
       P (det.to_agent, det.from_agent)) :
    ∀ p ∈ (mafPhase1Step st e).handoffMap, P p := by
  intro p hp
  unfold mafPhase1Step at hp
  cases htype : e.type <;> cases hdet : e.details <;> rw [htype, hdet] at hp <;> dsimp only at hp
  all_goals try (revert hp; split_ifs <;> intro hp <;> exact hP p hp)
  all_goals try exact hP p hp
  case handoff.some det =>
    rcases mem_amapSet hp with heq | ⟨hpm, _⟩
    · rw [heq]
      exact hnew det htype hdet
    · exact hP p hpm
  case user_message.some det =>
    revert hp
    cases hjs : jsTruthy ((some det).bind (fun d => d.tool_name)) <;>
      (intro hp; revert hp; split_ifs <;> intro hp <;>
        first | contradiction | exact absurd rfl (by assumption) | exact hP p hp)
  case agent_response.some det =>
    revert hp
    cases hjs : jsTruthy ((some det).bind (fun d => d.tool_name)) <;>
      (intro hp; revert hp; split_ifs <;> intro hp <;>
        first | contradiction | exact absurd rfl (by assumption) | exact hP p hp)
  case tool_call.some det =>
    revert hp
    cases hjs : jsTruthy ((some det).bind (fun d => d.tool_name)) <;>
      (intro hp; revert hp; split_ifs <;> intro hp <;>
        first | contradiction | exact absurd rfl (by assumption) | exact hP p hp)

theorem mafPhase1_hmap_sides (evs : List Event) :
    ∀ p ∈ (mafPhase1 (nonViolation evs)).handoffMap, p.2 ∈ mafSides evs := by
  unfold mafPhase1
  apply foldl_preserve
    (fun st : MAFPhase1 => ∀ p ∈ st.handoffMap, p.2 ∈ mafSides evs) _ _ _
  · intro p hp
    simp at hp
  · intro st e he hP
    apply mafPhase1Step_hmap hP
    intro det ht hdet
    exact mafSides_handoff_from he ht hdet

theorem addConnection_inv {sides : List JStr} {tools : List String}
    {st : List (String × Connection)} {t : String} {f tto : JStr} {idx : Nat}
    {et : String} {dir : Option String}
    (hInv : ConnInv sides tools st)
    (hdS : ∀ x ∈ sides, noDashStr (jsTemplate x))
    (_hdT : ∀ x ∈ tools, noDashStr x)
    (hdisj : ∀ x ∈ sides, ∀ tl ∈ tools, jsTemplate x ≠ tl)
    (ht : t ≠ "agent-tool")
    (hf : f ∈ sides) (htto : tto ∈ sides) :
    ConnInv sides tools (addConnection st t f tto idx et dir) := by
  unfold addConnection
  dsimp only
  set key := jsTemplate f ++ "-" ++ jsTemplate tto with hkey
  set rkey := jsTemplate tto ++ "-" ++ jsTemplate f with hrkey
  set ekey := (if amapHas st key then key else if amapHas st rkey then rkey else key) with hekey
  have hcase : ekey = key ∨ ekey = rkey := by
    rw [hekey]
    split_ifs <;> simp
  cases hget : amapGet st ekey with
  | some c =>
    have hmem := amapGet_mem hget
    have hInvc := hInv (ekey, c) hmem
    have hcnt : c.ctype ≠ "agent-tool" := by
      intro hct
      have hToolC := hInvc.2.1 hct
      rcases List.mem_map.mp hToolC.2.1 with ⟨tl, htl, hto⟩
      have hKeyEq : jsTemplate c.cFrom ++ "-" ++ jsTemplate c.cTo = ekey := hInvc.1.symm
      have hFromD : noDashStr (jsTemplate c.cFrom) := hdS _ hToolC.1
      have hToD : jsTemplate c.cTo = tl := by
        have hto2 : c.cTo = some tl := hto.symm
        rw [hto2]
        rfl
      rcases hcase with hek | hek
      · rw [hek, hkey] at hKeyEq
        have hsp := dash_split_str hFromD (hdS f hf) hKeyEq
        exact hdisj tto htto tl htl (by rw [← hsp.2, hToD])
      · rw [hek, hrkey] at hKeyEq
        have hsp := dash_split_str hFromD (hdS tto htto) hKeyEq
        exact hdisj f hf tl htl (by rw [← hsp.2, hToD])
    intro p hp
    rcases mem_amapSet hp with rfl | ⟨hpm, _⟩
    · refine ⟨hInvc.1, ?_, ?_⟩
      · intro hct
        exact absurd hct hcnt
      · intro _
        exact hInvc.2.2 hcnt
    · exact hInv p hpm
  | none =>
    have hek : ekey = key := by
      by_cases h1 : amapHas st key
      · rw [hekey, if_pos h1]
      · by_cases h2 : amapHas st rkey
        · exfalso
          have hek2 : ekey = rkey := by rw [hekey, if_neg h1, if_pos h2]
          rcases amapGet_isSome_of_has h2 with ⟨v, hv⟩
          rw [hek2, hv] at hget
          cases hget
        · rw [hekey, if_neg h1, if_neg h2]
    intro p hp
    rcases mem_amapSet hp with rfl | ⟨hpm, _⟩
    · refine ⟨by rw [hek, hkey], ?_, ?_⟩
      · intro hct
        exact absurd hct ht
      · intro _
        exact ⟨hf, htto⟩
    · exact hInv p hpm

theorem toolSet_inv {sides : List JStr} {tools : List String}
    {st : List (String × Connection)} {ag tn : String} {i : Nat}
    (hInv : ConnInv sides tools st)
    (hagent : (some ag : JStr) ∈ sides)
    (htool : tn ∈ tools) :
    ConnInv sides tools (amapSet st (ag ++ "-" ++ tn)
      ⟨"agent-tool", some ag, some tn, [⟨i, "tool_call", none⟩], false⟩) := by
  intro p hp
  rcases mem_amapSet hp with rfl | ⟨hpm, _⟩
  · refine ⟨rfl, ?_, ?_⟩
    · intro _
      refine ⟨hagent, List.mem_map.mpr ⟨tn, htool, rfl⟩, rfl, ?_⟩
      intro o ho
      simp only [List.mem_singleton] at ho
      rw [ho]
      exact ⟨rfl, rfl⟩
    · intro hct
      exact absurd rfl hct
  · exact hInv p hpm

theorem jsOrJ_sides {evs : List Event} {hmap : List (JStr × JStr)} {ag : String}
    (hmapv : ∀ q ∈ hmap, q.2 ∈ mafSides evs)
    (hag : (some ag : JStr) ∈ mafSides evs) :
    jsOrJ (amapGet hmap (some ag)) ag ∈ mafSides evs := by
  unfold jsOrJ
  cases hg : amapGet hmap (some ag) with
  | none => exact hag
  | some v =>
    cases v with
    | none => exact hag
    | some s =>
      dsimp only
      by_cases hs : s = ""
      · rw [if_pos hs]
        exact hag
      · rw [if_neg hs]
        exact hmapv _ (amapGet_mem hg)

theorem mafStep_inv {evs : List Event} {st : List (String × Connection)}
    (hdS : ∀ x ∈ mafSides evs, noDashStr (jsTemplate x))
    (hdT : ∀ x ∈ mafToolNames evs, noDashStr x)
    (hdisj : ∀ x ∈ mafSides evs, ∀ tl ∈ mafToolNames evs, jsTemplate x ≠ tl)
    (hInv : ConnInv (mafSides evs) (mafToolNames evs) st)
    (hmapv : ∀ q ∈ (mafPhase1 (nonViolation evs)).handoffMap, q.2 ∈ mafSides evs)
    (i : Nat) (e : Event) (he : e ∈ nonViolation evs) :
    ConnInv (mafSides evs) (mafToolNames evs)
      (mafStep (mafPhase1 (nonViolation evs)).handoffMap (nonViolation evs) st (i, e)) := by
  unfold mafStep
  dsimp only
  cases htype : e.type <;> dsimp only
  · -- user_message
    cases hfind : (List.drop (i + 1) (nonViolation evs)).find?
        (fun x => x.type == EventType.agent_response) with
    | none => exact hInv
    | some nr =>
      have hnr : nr ∈ nonViolation evs :=
        List.mem_of_mem_drop (List.mem_of_find?_eq_some hfind)
      exact addConnection_inv hInv hdS hdT hdisj (by decide) (mafSides_user evs)
        (jsOrJ_sides hmapv (mafSides_agent hnr))
  · -- agent_response
    cases hg : amapGet (mafPhase1 (nonViolation evs)).handoffMap (some e.agent) with
    | none =>
      exact addConnection_inv hInv hdS hdT hdisj (by decide) (mafSides_user evs)
        (mafSides_agent he)
    | some fa =>
      dsimp only
      by_cases hfa : jsTruthyJ fa
      · rw [if_pos hfa]
        have hfas : fa ∈ mafSides evs := hmapv _ (amapGet_mem hg)
        exact addConnection_inv
          (addConnection_inv hInv hdS hdT hdisj (by decide) hfas (mafSides_agent he))
          hdS hdT hdisj (by decide) (mafSides_user evs) hfas
      · rw [if_neg hfa]
        exact addConnection_inv hInv hdS hdT hdisj (by decide) (mafSides_user evs)
          (mafSides_agent he)
  · -- handoff
    cases hdet : e.details with
    | none => exact hInv
    | some det =>
      exact addConnection_inv hInv hdS hdT hdisj (by decide)
        (mafSides_handoff_from he htype hdet) (mafSides_handoff_to he htype hdet)
  · -- tool_call
    cases hjs : jsTruthy (e.details.bind (fun d => d.tool_name)) with
    | none => exact hInv
    | some tn =>
      exact toolSet_inv hInv (mafSides_agent he) (mafToolNames_intro he htype hjs)
  · -- violation
    exact hInv

theorem mafConnections_inv (evs : List Event)
    (hdS : ∀ x ∈ mafSides evs, noDashStr (jsTemplate x))
    (hdT : ∀ x ∈ mafToolNames evs, noDashStr x)
    (hdisj : ∀ x ∈ mafSides evs, ∀ tl ∈ mafToolNames evs, jsTemplate x ≠ tl) :
    ConnInv (mafSides evs) (mafToolNames evs) (mafConnections evs) := by
  unfold mafConnections
  dsimp only
  apply foldl_preserve (ConnInv (mafSides evs) (mafToolNames evs)) _ _ _
  · intro p hp
    simp at hp
  · intro st q hq hInv
    have hq2 : q.2 ∈ nonViolation evs := List.snd_mem_of_mem_enum hq
    have := mafStep_inv hdS hdT hdisj hInv (mafPhase1_hmap_sides evs) q.1 q.2 hq2
    exact this

/-- Claim C6, amended.  When connection keys are unambiguous — no
participant name or tool name contains the `-` separator, and tool
names are disjoint from all agent-side names — every agent-tool
connection carries only direction-free `tool_call` occurrences (in
particular no response-direction occurrence), and no rendered edge ever
has a tool as its source.  (The original unconditional claim is false:
dash-ambiguous names collide in the string keys and push a backward
`agent_response` occurrence onto an agent-tool connection — see the
counterexample.) -/
theorem C6_theorem (evs : List Event)
    (hdS : ∀ x ∈ mafSides evs, noDashStr (jsTemplate x))
    (hdT : ∀ x ∈ mafToolNames evs, noDashStr x)
    (hdisj : ∀ x ∈ mafSides evs, ∀ tl ∈ mafToolNames evs, jsTemplate x ≠ tl) :
    (∀ p ∈ mafConnections evs, p.2.ctype = "agent-tool" →
       ∀ o ∈ p.2.events, o.etype = "tool_call" ∧ o.direction = none) ∧
    (∀ ci : Nat, ∀ ed ∈ initialEdges (mafConnections evs) evs ci,
       ∀ tl ∈ mafToolNames evs, ed.source ≠ some tl) := by
  have hInv := mafConnections_inv evs hdS hdT hdisj
  have hside : ∀ x ∈ mafSides evs, ∀ tl ∈ mafToolNames evs, x ≠ some tl := by
    intro x hx tl htl hxe
    exact hdisj x hx tl htl (by rw [hxe]; rfl)
  constructor
  · intro p hp hct
    exact ((hInv p hp).2.1 hct).2.2.2
  · intro ci ed hed tl htl
    unfold initialEdges at hed
    rcases List.mem_map.mp hed with ⟨p, hp, hpe⟩
    subst hpe
    dsimp only
    have hInvp := hInv p hp
    intro hcon
    revert hcon
    split
    · -- flipped: source = cTo; the flip condition forces a non-tool connection
      intro hcon
      next hflip =>
        simp only [Bool.and_eq_true, Bool.not_eq_true', beq_eq_false_iff_ne, ne_eq] at hflip
        have hcnt : p.2.ctype ≠ "agent-tool" := hflip.1.1.2
        exact hside _ (hInvp.2.2 hcnt).2 tl htl hcon
    · -- unflipped: source = cFrom, which is agent-side for every connection type
      intro hcon
      by_cases hct : p.2.ctype = "agent-tool"
      · exact hside _ ((hInvp.2.1 hct).1) tl htl hcon
      · exact hside _ (hInvp.2.2 hct).1 tl htl hcon

/-! ## Counterexamples and witnesses -/

/-- On `exC1` the single detection (id 7) attaches to both the user
message and its paired agent response, so two violation events
reference the same detection id — refuting the original uniqueness
claim. -/
theorem C1_counterexample :
    (processSessionData noCache exC1).countP
      (fun e => e.type == EventType.violation &&
        (e.details.bind (fun d => d.violation_id)) == some 7) = 2 := by
  decide

/-- The user event of `exC1` is in the output and its detection list is
pairwise distinct under the dedup identity. -/
theorem C1_witness :
    mkUserEvent exC1.detections 0 exC1msg ∈ processSessionData noCache exC1 ∧
    List.Pairwise (fun a b : Detection => a.id ≠ b.id ∧
      ¬(a.message_id = b.message_id ∧ a.detection_type = b.detection_type))
      (mkUserEvent exC1.detections 0 exC1msg).detections :=
  ⟨by decide, C1_theorem noCache exC1 _ (by decide)⟩

/-- On `exC2` the synthesized handoff event shares the flagged user
message's timestamp, so the violation (timestamp +1) sorts after the
handoff rather than immediately after the user message — refuting the
original adjacency claim. -/
theorem C2_counterexample :
    (processSessionData noCache exC2).map (fun e => (e.type, e.timestamp)) =
      [(EventType.user_message, 0), (EventType.handoff, 0),
       (EventType.violation, 1), (EventType.agent_response, 100)] := by
  decide

/-- The violation synthesized for the user event of `exC1` at detection
index 0 is a member of the sorted output. -/
theorem C2_witness :
    mkViolation (mkUserEvent exC1.detections 0 exC1msg) 0 exD7 ∈
      processSessionData noCache exC1 :=
  ((C2_theorem noCache exC1).2 (mkUserEvent exC1.detections 0 exC1msg) (by decide)
    (0, exD7) (by decide)).1

/-- On `exC3` no handoff is recorded, so the tool event keeps its source
timestamp 2000 and appears after the agent response (timestamp 1000) —
refuting the original "tool calls precede the response" claim. -/
theorem C3_counterexample :
    (processSessionData noCache exC3).map (fun e => (e.type, e.timestamp)) =
      [(EventType.user_message, 0), (EventType.agent_response, 1000),
       (EventType.tool_call, 2000)] := by
  decide

/-- On the handoff-bearing response `exRhand`, tool 0 is timestamped
`response - 50`, lies strictly between the handoff and response
timestamps, and precedes any later tool. -/
theorem C3_witness :
    exRhand.handoff_occurred = true ∧
    (mkToolEvent noCache exRhand 0 exTool).timestamp =
      exRhand.timestamp - 50 + ((0 : Nat) : Int) * 10 ∧
    (mkHandoffEvent noCache exRhand exHd).timestamp <
      (mkToolEvent noCache exRhand 0 exTool).timestamp ∧
    ((mkToolEvent noCache exRhand 0 exTool).timestamp <
      (mkRespEvent noCache [] 0 exRhand).timestamp ↔ (0 : Nat) < 5) ∧
    (mkToolEvent noCache exRhand 0 exTool).timestamp <
      (mkToolEvent noCache exRhand 1 exTool).timestamp :=
  ⟨rfl,
   ((C3_theorem noCache [] 0 exRhand 0 exTool exHd).1 rfl).1,
   ((C3_theorem noCache [] 0 exRhand 0 exTool exHd).1 rfl).2.1,
   ((C3_theorem noCache [] 0 exRhand 0 exTool exHd).1 rfl).2.2.1,
   ((C3_theorem noCache [] 0 exRhand 0 exTool exHd).1 rfl).2.2.2 1 exTool (by decide)⟩

/-- Two cache states that disagree on the transcript's agent id `a1`
yield different outputs on the same session data — refuting the original
cache-independence claim. -/
theorem C4_counterexample :
    processSessionData noCache exC4 ≠ processSessionData cacheAlice exC4 := by
  decide

/-- Two cache states agreeing on every name key of `exC4` yield equal
outputs. -/
theorem C4_witness :
    processSessionData cacheAlice exC4 = processSessionData cacheB exC4 :=
  C4_theorem cacheAlice cacheB exC4 (by decide)

/-- On `exC5` the outer agent `bravo_one` never responds itself, so its
display name gets no top-level id mapping and the participant map holds
two entries for it (`bravo_one` and `Bravo One`) — refuting the original
one-entry-per-agent claim. -/
theorem C5_counterexample :
    (flowAgents (processSessionData noCache exC5)).countP
      (fun p => p.1 == "bravo_one" || p.1 == "Bravo One") = 2 := by
  decide

/-- On `evW5` the agent carries id `a9` and name `Alice` consistently,
and the participant map holds exactly the canonical entry `a9`. -/
theorem C5_witness :
    amapHas (flowAgents evW5) "a9" = true ∧
    amapHas (flowAgents evW5) "Alice" = false ∧
    (flowAgents evW5).countP (fun p => p.1 == "a9" || p.1 == "Alice") = 1 :=
  C5_theorem evW5 "a9" "Alice" (by decide) (by decide) (by decide)
    (by
      intro e he hn k' hk'
      have hm : e ∈ evW5 := (List.mem_filter.mp he).1
      simp only [evW5, List.mem_cons, List.not_mem_nil, or_false] at hm
      rcases hm with rfl | rfl
      · simpa [jsTruthy] using hk'.symm
      · simp [jsTruthy] at hk')
    (by decide)
    (by
      intro e he ht det hdet
      have hm : e ∈ evW5 := (List.mem_filter.mp he).1
      simp only [evW5, List.mem_cons, List.not_mem_nil, or_false] at hm
      rcases hm with rfl | rfl <;> exact absurd ht (by decide))

/-- On `evC6` the dash-ambiguous names make the keys `x-y-z` collide:
the agent-tool connection for agent `x` and tool `y-z` ends up carrying
a forward `handoff` and a backward `agent_response` occurrence —
refuting the original claim that tool edges carry only tool-call
traffic. -/
theorem C6_counterexample :
    (amapGet (mafConnections evC6) "x-y-z").map (fun c =>
        (c.ctype, c.events.map (fun o => (o.etype, o.direction, o.index)))) =
      some ("agent-tool",
        [("tool_call", none, 0), ("handoff", some "forward", 1),
         ("agent_response", some "backward", 2)]) := by
  decide

/-- On the dash-free `evW6` the agent-tool occurrence is a direction-free
tool call, and the rendered `x-T` edge at cursor 1 does not run from the
tool. -/
theorem C6_witness :
    (oW6.etype = "tool_call" ∧ oW6.direction = none) ∧ edW6.source ≠ some "T" :=
  ⟨(C6_theorem evW6 (by simp only [noDashStr]; decide) (by simp only [noDashStr]; decide)
      (by decide)).1 cW6 (by decide) rfl oW6 (by decide),
   (C6_theorem evW6 (by simp only [noDashStr]; decide) (by simp only [noDashStr]; decide)
      (by decide)).2 1 edW6 (by decide) "T" (by decide)⟩

/-- The unmatched user message `exM7` yields exactly its user event. -/
theorem C7_witness :
    turnEvents noCache [] exRs7 0 exM7 = [mkUserEvent [] 0 exM7] :=
  (C7_theorem noCache [] exRs7 0 exM7 rfl (by decide) (by decide)).1

/-- The orphan detection `exD9` appears in no detection list of the
user event of `exC8`. -/
theorem C8_witness :
    exD9 ∉ (mkUserEvent exC8.detections 0 exC1msg).detections :=
  (C8_theorem noCache exC8 exD9 (by decide) (by decide) (by decide) (by decide) (by decide)
    (mkUserEvent exC8.detections 0 exC1msg) (by decide)).1

/-- The active flag of the `x-y-z` edge of `evC6` at cursor 0 is exactly
the direct-occurrence-or-tool-path condition. -/
theorem C9_witness :
    exEdge9.active = true ↔
      (∃ p ∈ mafConnections evC6, p.1 = exEdge9.key ∧ connHasIndex p.2 0) ∨
      (cursorIsToolCall evC6 0 ∧
        exEdge9.key ∈ toolCallPathKeys (mafConnections evC6) evC6 0) :=
  C9_theorem (mafConnections evC6) evC6 0 (by decide) exEdge9 (by decide)

/-- The assistant-role message of `exC10` contributes no events. -/
theorem C10_witness :
    turnEvents noCache exC10.detections exC10.agent_responses 0 exAsstMsg = [] :=
  (C10_theorem noCache exC10).1 (0, exAsstMsg) (by decide) (by decide)
